import Mathlib

/-!
Verification of the ExcelConverter core: the type-conversion engine
(`excel_converter/core/type_system.py`), the scope filter
(`excel_converter/utils/scope_utils.py`), the data processor
(`excel_converter/core/data_processor.py`) and the data merger
(`excel_converter/core/data_merger.py`), shallowly embedded in Lean.

Python strings are modelled as `List Char` (`Str`); Python values reaching
the converters are modelled by the inductive `Value` (with `float` modelled
as an exact rational, sufficient for the conversions exercised here);
raising code is modelled with `Except Str`.  Exception *messages* are
reconstructed from the repository's f-strings; messages that originate in
the Python runtime itself (`ValueError` texts, `dataclass` reprs) are
approximated and never load-bearing in any theorem below.
-/

/-- Python strings, modelled as lists of characters. -/
abbrev Str := List Char

/-- Embed a Lean string literal as a `Str`. -/
def pys (s : String) : Str := s.data

/-- The whitespace characters stripped by Python `str.strip()` (ASCII part;
the full Unicode whitespace set is not needed by any input considered here). -/
def pyIsSpace (c : Char) : Bool :=
  c = ' ' || c = '\t' || c = '\n' || c = '\r' || c = '\x0b' || c = '\x0c'

/-- Left part of Python `str.strip()`. -/
def pyStripL (s : Str) : Str := s.dropWhile pyIsSpace

/-- Right part of Python `str.strip()`. -/
def pyStripR (s : Str) : Str := ((s.reverse).dropWhile pyIsSpace).reverse

/-- Python `str.strip()`: drop leading and trailing whitespace. -/
def pyStrip (s : Str) : Str := pyStripR (pyStripL s)

/-- ASCII lowering, the part of Python `str.lower()` relevant to the
boolean vocabulary (all its cased tokens are ASCII). -/
def pyLowerChar (c : Char) : Char :=
  if 'A' ≤ c ∧ c ≤ 'Z' then Char.ofNat (c.toNat + 32) else c

/-- Python `str.lower()` (ASCII part). -/
def pyLower (s : Str) : Str := s.map pyLowerChar

/-- Worker for Python `str.split(sep)` with non-empty `sep = shead :: stail`:
leftmost, non-overlapping occurrences; `acc` holds the current segment
reversed.  The recursion is structural on a fuel that callers set to at
least the string length (`pySplitGoF_fuel_irrel` shows any sufficient fuel
gives the same result), keeping the definition kernel-reducible. -/
def pySplitGoF (shead : Char) (stail : Str) : Nat → Str → Str → List Str
  | 0, s, acc => [acc.reverse ++ s]
  | fuel + 1, s, acc =>
    match s with
    | [] => [acc.reverse]
    | ch :: rest =>
      if ch = shead ∧ stail.isPrefixOf rest then
        acc.reverse :: pySplitGoF shead stail fuel (rest.drop stail.length) []
      else
        pySplitGoF shead stail fuel rest (ch :: acc)

/-- Python `str.split(sep)` for a non-empty separator.  (Python raises
`ValueError` on an empty separator; callers below model that case
separately.) -/
def pySplit (sep s : Str) : List Str :=
  match sep with
  | [] => [s]
  | shead :: stail => pySplitGoF shead stail s.length s []

theorem pySplitGoF_fuel_irrel (shead : Char) (stail : Str) :
    ∀ f g s acc, s.length ≤ f → s.length ≤ g →
      pySplitGoF shead stail f s acc = pySplitGoF shead stail g s acc := by
  intro f
  induction f with
  | zero =>
    intro g s acc hf _
    have hs : s = [] := List.length_eq_zero.mp (Nat.le_zero.mp hf)
    subst hs
    cases g <;> simp [pySplitGoF]
  | succ f ih =>
    intro g s acc hf hg
    match g with
    | 0 =>
      have hs : s = [] := List.length_eq_zero.mp (Nat.le_zero.mp hg)
      subst hs
      simp [pySplitGoF]
    | g' + 1 =>
      match s with
      | [] => rfl
      | ch :: rest =>
        simp only [pySplitGoF]
        have hr : rest.length ≤ f := by
          simp only [List.length_cons] at hf
          omega
        have hr' : rest.length ≤ g' := by
          simp only [List.length_cons] at hg
          omega
        split
        · have hd : (rest.drop stail.length).length ≤ f :=
            Nat.le_trans (by simp [List.length_drop]) hr
          have hd' : (rest.drop stail.length).length ≤ g' :=
            Nat.le_trans (by simp [List.length_drop]) hr'
          rw [ih _ _ _ hd hd']
        · rw [ih _ _ _ hr hr']

/-- Python `str.split()` / `str.split(None)`: split on whitespace runs,
discarding empty segments. -/
def pyWords (s : Str) : List Str :=
  (s.splitOnP pyIsSpace).filter (· ≠ [])

/-- Python `str.split(sep, 1)` when `sep` occurs in the string: the parts
before and after the first occurrence of the non-empty `sep`. -/
def pySplitOnce (shead : Char) (stail : Str) : Str → Option (Str × Str)
  | [] => none
  | ch :: rest =>
    if ch = shead ∧ stail.isPrefixOf rest then
      some ([], rest.drop stail.length)
    else
      match pySplitOnce shead stail rest with
      | some (a, b) => some (ch :: a, b)
      | none => none

/-- Python `sep.join(parts)`. -/
def pyJoin (sep : Str) : List Str → Str
  | [] => []
  | [x] => x
  | x :: y :: rest => x ++ sep ++ pyJoin sep (y :: rest)

/-- Decimal rendering of a natural number (Python `str(i)` for `i ≥ 0`). -/
def natStr (n : Nat) : Str := (Nat.repr n).data

/-- Decimal rendering of an integer (Python `str(i)`). -/
def intStr (i : Int) : Str := (Int.repr i).data

/-- Python substring test `needle in haystack`. -/
def strContains (haystack needle : Str) : Bool := decide (needle <:+: haystack)

/-- A Python value as it reaches the converters: `None`, `bool`, `int`,
`float` (modelled as an exact rational), `str`, `list`, or a
string-keyed, insertion-ordered `dict`. -/
inductive Value where
  | none : Value
  | bool (b : Bool) : Value
  | int (n : Int) : Value
  | float (q : ℚ) : Value
  | str (s : Str) : Value
  | list (vs : List Value) : Value
  | dict (kvs : List (Str × Value)) : Value

/-- Whether a value is the Python `None` (an `is None` test). -/
def isNoneV : Value → Bool
  | .none => true
  | _ => false

/-- Rendering of a `float` for `str()`; Python prints a shortest decimal
round-trip representation, approximated here (never load-bearing: no claim
inspects the text of a stringified float). -/
def ratStr (q : ℚ) : Str :=
  if q.den = 1 then intStr q.num ++ pys ".0"
  else intStr q.num ++ pys "/" ++ natStr q.den

mutual

/-- Python `repr(v)`.  String quoting/escaping is approximated with plain
single quotes; container reprs are never load-bearing below. -/
def pyRepr : Value → Str
  | .none => pys "None"
  | .bool b => if b then pys "True" else pys "False"
  | .int n => intStr n
  | .float q => ratStr q
  | .str s => pys "\x27" ++ s ++ pys "\x27"
  | .list vs => pys "[" ++ pyJoin (pys ", ") (pyReprList vs) ++ pys "]"
  | .dict kvs => pys "\x7b" ++ pyJoin (pys ", ") (pyReprPairs kvs) ++ pys "\x7d"

/-- Reprs of the elements of a list value. -/
def pyReprList : List Value → List Str
  | [] => []
  | v :: vs => pyRepr v :: pyReprList vs

/-- Reprs of the entries of a dict value. -/
def pyReprPairs : List (Str × Value) → List Str
  | [] => []
  | (k, v) :: kvs =>
    (pys "\x27" ++ k ++ pys "\x27: " ++ pyRepr v) :: pyReprPairs kvs

end

/-- Python `str(v)`: identity on strings, `repr` otherwise (which agrees
with `str` on `None`, booleans and numbers). -/
def pyStr : Value → Str
  | .str s => s
  | v => pyRepr v

mutual

/-- Python `==` on values: numeric types compare by value across
`bool`/`int`/`float` (`True == 1 == 1.0`), everything else structurally. -/
def pyEq : Value → Value → Bool
  | .none, .none => true
  | .bool a, .bool b => a = b
  | .bool a, .int n => (if a then (1 : Int) else 0) = n
  | .bool a, .float q => ((if a then (1 : Int) else 0) : ℚ) = q
  | .int m, .bool b => m = (if b then (1 : Int) else 0)
  | .int m, .int n => m = n
  | .int m, .float q => (m : ℚ) = q
  | .float p, .bool b => p = ((if b then (1 : Int) else 0) : ℚ)
  | .float p, .int n => p = (n : ℚ)
  | .float p, .float q => p = q
  | .str s, .str t => s = t
  | .list as, .list bs => pyEqList as bs
  | .dict as, .dict bs => pyEqPairs as bs
  | _, _ => false

/-- Elementwise Python `==` on lists. -/
def pyEqList : List Value → List Value → Bool
  | [], [] => true
  | a :: as, b :: bs => pyEq a b && pyEqList as bs
  | _, _ => false

/-- Entrywise Python `==` on dict entry lists (a simplification of dict
equality, only ever applied to keys below, which are never dicts). -/
def pyEqPairs : List (Str × Value) → List (Str × Value) → Bool
  | [], [] => true
  | (k, a) :: as, (l, b) :: bs => k = l && pyEq a b && pyEqPairs as bs
  | _, _ => false

end

/-- Python `int(s)` on a stripped string (ASCII form: optional sign and a
non-empty run of digits; Python's underscore/Unicode-digit extensions are
not exercised by any claim). -/
def pyParseInt (s : Str) : Option Int :=
  let core : Str → Option Nat := fun ds =>
    if ds = [] ∨ ¬ ds.all Char.isDigit then Option.none
    else some (ds.foldl (fun acc c => 10 * acc + (c.toNat - 48)) 0)
  match s with
  | '-' :: rest => (core rest).map (fun n => -(n : Int))
  | '+' :: rest => (core rest).map (fun n => (n : Int))
  | _ => (core s).map (fun n => (n : Int))

/-- Digits folded into a natural number. -/
def digitsToNat (ds : Str) : Nat :=
  ds.foldl (fun acc c => 10 * acc + (c.toNat - 48)) 0

/-- Python `float(s)` on a stripped string, for finite decimal forms
`[±]digits[.digits][(e|E)[±]digits]` with at least one mantissa digit
(`inf`/`nan` and exotic forms are not exercised by any claim). -/
def pyParseFloat (s : Str) : Option ℚ :=
  let afterSign : Str × Bool :=
    match s with
    | '-' :: rest => (rest, true)
    | '+' :: rest => (rest, false)
    | _ => (s, false)
  let (body, neg) := afterSign
  let (mant, expPart) :=
    match body.span (fun c => c ≠ 'e' ∧ c ≠ 'E') with
    | (m, []) => (m, some ([] : Str))  -- marker: no exponent  (re-encoded below)
    | (m, _ :: e) => (m, some e)
  let hasExp := body.any (fun c => c = 'e' ∨ c = 'E')
  let (ip, fpRaw) := mant.span (· ≠ '.')
  let fp : Str := match fpRaw with | [] => [] | _ :: t => t
  let dotted : Bool := fpRaw ≠ []
  if ¬ (ip ++ fp).all Char.isDigit then Option.none
  else if ip = [] ∧ fp = [] then Option.none
  else if dotted = false ∧ fp ≠ [] then Option.none
  else
    let base : ℚ := (digitsToNat ip : ℚ) + (digitsToNat fp : ℚ) / ((10 : ℚ) ^ fp.length)
    let withExp : Option ℚ :=
      if hasExp then
        match expPart with
        | some e =>
          let (ed, eneg) :=
            match e with
            | '-' :: r => (r, true)
            | '+' :: r => (r, false)
            | _ => (e, false)
          if ed = [] ∨ ¬ ed.all Char.isDigit then Option.none
          else
            let k := digitsToNat ed
            some (if eneg then base / (10 : ℚ) ^ k else base * (10 : ℚ) ^ k)
        | Option.none => Option.none
      else some base
    withExp.map (fun q => if neg then -q else q)

/-- Python `int(f)` on a float: truncation toward zero. -/
def pyTrunc (q : ℚ) : Int := if 0 ≤ q then ⌊q⌋ else ⌈q⌉

/-- Rows and object-conversion results: Python dicts with string keys. -/
abbrev Row := List (Str × Value)

/-- Python `d[k] = v` on a string-keyed dict: update in place if a key equal
to `k` is present (keeping the original key position), else append. -/
def sdictInsert (d : List (Str × α)) (k : Str) (v : α) : List (Str × α) :=
  if d.any (fun p => p.1 = k) then
    d.map (fun p => if p.1 = k then (p.1, v) else p)
  else d ++ [(k, v)]

/-- A Python dict built from a list of key-value pairs (later duplicates
overwrite in place, as in a dict comprehension). -/
def sdictOf (l : List (Str × α)) : List (Str × α) :=
  l.foldl (fun d p => sdictInsert d p.1 p.2) []

/-- Python `d.get(k)` / `d[k]` on a string-keyed dict. -/
def sdictGet? (d : List (Str × α)) (k : Str) : Option α :=
  (d.find? (fun p => p.1 = k)).map (·.2)

/-- Python `k in d` on a string-keyed dict. -/
def sdictHas (d : List (Str × α)) (k : Str) : Bool :=
  d.any (fun p => p.1 = k)

/-- Python `d[k] = v` on a dict keyed by arbitrary values (`==` keying with
numeric punning; the original key object is kept on update, as in Python). -/
def vdictInsert (d : List (Value × Row)) (k : Value) (v : Row) : List (Value × Row) :=
  if d.any (fun p => pyEq p.1 k) then
    d.map (fun p => if pyEq p.1 k then (p.1, v) else p)
  else d ++ [(k, v)]

/-- Truthiness of an optional string (`None` and `""` are falsy), used for
`if field_config.type:`-style tests. -/
def truthyS : Option Str → Bool
  | Option.none => false
  | some s => s ≠ []

/-- `config_manager.ObjectSchemaConfig`: an object schema (description,
field separator, key-value separator, ordered `key`/`type` member list). -/
structure ObjectSchemaConfig where
  description : Str
  separator : Str
  key_value_separator : Str
  fields : List (Str × Str)

/-- `config_manager.FieldConfig`: a per-field export declaration. -/
structure FieldConfig where
  name : Str
  type : Option Str
  scope : Str
  separator : Option Str

/-- `config_manager.ExportConfig` (the parts the core reads; `primary_key`
is taken post-`resolve_defaults`, hence non-optional). -/
structure ExportConfig where
  scope : Str
  primary_key : Str
  fields : List FieldConfig

/-- `excel_reader.ExcelField` (the parts the core reads). -/
structure ExcelField where
  name : Str
  type : Str

/-- `excel_reader.ExcelData` (the parts the core reads). -/
structure ExcelData where
  fields : List ExcelField
  rows : List Row

/-- The basic scalar type names of `type_system.py`. -/
def scalarTypes : List Str := [pys "int", pys "float", pys "string", pys "bool"]

/-- The affirmative boolean vocabulary of `BasicTypeConverter.convert`. -/
def boolTokens : List Str := [pys "true", pys "1", pys "yes", pys "on", pys "是", pys "真"]

/-- Message of a `ConversionError` wrapping a scalar conversion failure
(`f"Failed to convert '{value}' to {target_type}: {e}"`). -/
def convFailMsg (value : Value) (targetType e : Str) : Str :=
  pys "Failed to convert \x27" ++ pyStr value ++ pys "\x27 to " ++ targetType ++ pys ": " ++ e

/-- `BasicTypeConverter.convert`: convert to `int`, `float`, `bool` or
`string`.  In Python `isinstance(b, (int, float))` is true for booleans, so
booleans take the numeric fast path for `int`/`float`.  The texts of the
wrapped `ValueError`s are approximations of CPython's. -/
def basicConvert (value : Value) (targetType : Str) : Except Str Value :=
  match value with
  | .none => .ok .none
  | _ =>
    if targetType = pys "int" then
      match value with
      | .bool b => .ok (.int (if b then 1 else 0))
      | .int n => .ok (.int n)
      | .float q => .ok (.int (pyTrunc q))
      | _ =>
        match pyParseInt (pyStrip (pyStr value)) with
        | some n => .ok (.int n)
        | Option.none =>
          .error (convFailMsg value (pys "int")
            (pys "invalid literal for int() with base 10: " ++ pyRepr (.str (pyStrip (pyStr value)))))
    else if targetType = pys "float" then
      match value with
      | .bool b => .ok (.float (if b then 1 else 0))
      | .int n => .ok (.float (n : ℚ))
      | .float q => .ok (.float q)
      | _ =>
        match pyParseFloat (pyStrip (pyStr value)) with
        | some q => .ok (.float q)
        | Option.none =>
          .error (convFailMsg value (pys "float")
            (pys "could not convert string to float: " ++ pyRepr (.str (pyStrip (pyStr value)))))
    else if targetType = pys "bool" then
      match value with
      | .bool b => .ok (.bool b)
      | _ => .ok (.bool (boolTokens.contains (pyLower (pyStrip (pyStr value)))))
    else if targetType = pys "string" then
      .ok (.str (pyStrip (pyStr value)))
    else
      .error (pys "Unknown basic type: " ++ targetType)

/-- The string-splitting step used by the converters: `sep = None` is
Python's whitespace split, an empty separator raises `ValueError`, and a
non-empty separator is an ordinary `str.split`. -/
def pySplitE (sep : Option Str) (s : Str) : Except Str (List Str) :=
  match sep with
  | Option.none => .ok (pyWords s)
  | some [] => .error (pys "empty separator")
  | some sp => .ok (pySplit sp s)

/-- The `dataclass` repr of an `ObjectSchemaConfig`, interpolated by the
unknown-field-key error message. -/
def schemaRepr (sc : ObjectSchemaConfig) : Str :=
  pys "ObjectSchemaConfig(description=" ++ pyRepr (.str sc.description) ++
  pys ", separator=" ++ pyRepr (.str sc.separator) ++
  pys ", key_value_separator=" ++ pyRepr (.str sc.key_value_separator) ++
  pys ", fields=" ++
  pyRepr (.list (sc.fields.map (fun kt => .dict [(pys "key", .str kt.1), (pys "type", .str kt.2)]))) ++
  pys ")"

/-- `ObjectTypeConverter._parse_ordered_values`: positional notation; the
i-th non-empty segment is converted with the i-th declared member's type. -/
def parseOrderedValues (sc : ObjectSchemaConfig) (value : Str) : Except Str Row := do
  let raw ← pySplitE (some sc.separator) value
  let parts := raw.map pyStrip
  sc.fields.enum.foldlM (fun res ikt =>
    if ikt.1 < parts.length ∧ parts.getD ikt.1 [] ≠ [] then
      match basicConvert (.str (parts.getD ikt.1 [])) ikt.2.2 with
      | .ok v => pure (sdictInsert res ikt.2.1 v)
      | .error e =>
        .error (pys "Failed to convert field \x27" ++ ikt.2.1 ++ pys "\x27 value \x27" ++
          parts.getD ikt.1 [] ++ pys "\x27: " ++ e)
    else pure res) []

/-- `ObjectTypeConverter._parse_key_value_pairs`: key-value notation; each
non-empty `key<kvsep>value` pair is converted with the declared member type
of `key`. -/
def parseKeyValuePairs (sc : ObjectSchemaConfig) (value : Str) : Except Str Row := do
  let raw ← pySplitE (some sc.separator) value
  let pairs := raw.map pyStrip
  let fieldTypes := sdictOf sc.fields
  pairs.foldlM (fun res pair =>
    if pair = [] then pure res
    else if strContains pair sc.key_value_separator = false then
      .error (pys "Invalid key-value pair format: \x27" ++ pair ++
        pys "\x27. Expected format: key" ++ sc.key_value_separator ++ pys "value")
    else
      match sc.key_value_separator with
      | [] => .error (pys "empty separator")
      | kh :: kt =>
        match pySplitOnce kh kt pair with
        | some kv =>
          let k := pyStrip kv.1
          let v := pyStrip kv.2
          match sdictGet? fieldTypes k with
          | Option.none =>
            .error (pys "Unknown field key \x27" ++ k ++ pys "\x27 in schema \x27" ++
              schemaRepr sc ++ pys "\x27")
          | some ftype =>
            match basicConvert (.str v) ftype with
            | .ok cv => pure (sdictInsert res k cv)
            | .error e =>
              .error (pys "Failed to convert field \x27" ++ k ++ pys "\x27 value \x27" ++
                v ++ pys "\x27: " ++ e)
        | Option.none => .error (pys "separator not found")) []

/-- `ObjectTypeConverter.convert`: look up the schema, detect the notation
by whether the key-value separator occurs anywhere in the trimmed string,
and parse accordingly. -/
def objectConvert (schemas : List (Str × ObjectSchemaConfig)) (value : Value)
    (schemaName : Str) : Except Str Value :=
  match value with
  | .none => .ok (.dict [])
  | _ =>
    match sdictGet? schemas schemaName with
    | Option.none => .error (pys "Unknown object schema: " ++ schemaName)
    | some schema =>
      let sv := pyStrip (pyStr value)
      if sv = [] then .ok (.dict [])
      else if strContains sv schema.key_value_separator then
        (parseKeyValuePairs schema sv).map Value.dict
      else
        (parseOrderedValues schema sv).map Value.dict

/-- The string a `re.match` against an anchored pattern actually has to
cover: `$` also matches just before one trailing newline. -/
def reBody (s : Str) : Str := if s.getLast? = some '\n' then s.dropLast else s

/-- Match of `^array<(.+)>$` (as compiled in `TypeSystem.__init__`) and its
group: `.` does not cross a newline, `$` tolerates one trailing newline. -/
def parseArrayType (s : Str) : Option Str :=
  let b := reBody s
  if (pys "array<").isPrefixOf b ∧ b.getLast? = some '>' then
    let mid := (b.drop 6).dropLast
    if mid ≠ [] ∧ ¬ ('\n' ∈ mid) then some mid else Option.none
  else Option.none

/-- Match of `^object:(.+)$` and its group. -/
def parseObjectType (s : Str) : Option Str :=
  let b := reBody s
  if (pys "object:").isPrefixOf b then
    let mid := b.drop 7
    if mid ≠ [] ∧ ¬ ('\n' ∈ mid) then some mid else Option.none
  else Option.none

theorem reBody_length_le (s : Str) : (reBody s).length ≤ s.length := by
  unfold reBody
  split
  · simp [List.length_dropLast]
  · exact Nat.le_refl _

theorem pyStripL_length_le (s : Str) : (pyStripL s).length ≤ s.length :=
  (List.dropWhile_sublist _).length_le

theorem pyStrip_length_le (s : Str) : (pyStrip s).length ≤ s.length := by
  unfold pyStrip pyStripR
  calc ((pyStripL s).reverse.dropWhile pyIsSpace).reverse.length
      = ((pyStripL s).reverse.dropWhile pyIsSpace).length := List.length_reverse _
    _ ≤ (pyStripL s).reverse.length := (List.dropWhile_sublist _).length_le
    _ = (pyStripL s).length := List.length_reverse _
    _ ≤ s.length := pyStripL_length_le s

theorem parseArrayType_length {s e : Str} (h : parseArrayType s = some e) :
    e.length + 7 ≤ s.length := by
  simp only [parseArrayType] at h
  split at h
  · split at h
    · rename_i hcond hmid
      have he : e = ((reBody s).drop 6).dropLast := by
        injection h with h'
        exact h'.symm
      have hlen : e.length = (reBody s).length - 6 - 1 := by
        subst he
        simp [List.length_dropLast, List.length_drop]
      have hne : e ≠ [] := by
        subst he
        exact hmid.1
      have hpos : 0 < e.length := List.length_pos.mpr hne
      have hb := reBody_length_le s
      omega
    · exact absurd h (by simp)
  · exact absurd h (by simp)

mutual

/-- `TypeSystem.convert_value` (recursion worker): `None` passes through,
the trimmed descriptor dispatches to a scalar, array or object conversion,
and an unrecognized descriptor falls back to the trimmed string
representation.  `sep` is `kwargs.get('separator', ',')` as resolved at the
call site (`Option.none` models an explicit Python `None`).  The mutual
recursion is structural on a fuel that the wrappers below set high enough
(`convertF_fuel_irrel` shows any sufficient fuel gives the same result),
keeping the definitions kernel-reducible. -/
def convertValueF : Nat → List (Str × ObjectSchemaConfig) → Value → Str → Option Str →
    Except Str Value
  | 0, _, _, _, _ => .error (pys "recursion limit")
  | _ + 1, schemas, Value.none, _, _ =>
    let _ := schemas
    .ok .none
  | fuel + 1, schemas, value, typeDef, sep =>
    let td := pyStrip typeDef
    if td ∈ scalarTypes then basicConvert value td
    else
      match parseArrayType td with
      | some elemT => arrayConvertF fuel schemas value elemT sep
      | Option.none =>
        match parseObjectType td with
        | some name => objectConvert schemas value name
        | Option.none => .ok (.str (pyStrip (pyStr value)))

/-- `ArrayTypeConverter.convert` (recursion worker): a `None` value is an
empty list, a list value is converted elementwise, and any other value is
stringified, trimmed, split on the separator, its empty segments discarded,
and the remaining segments converted elementwise. -/
def arrayConvertF : Nat → List (Str × ObjectSchemaConfig) → Value → Str → Option Str →
    Except Str Value
  | 0, _, _, _, _ => .error (pys "recursion limit")
  | _ + 1, schemas, Value.none, _, _ =>
    let _ := schemas
    .ok (.list [])
  | fuel + 1, schemas, Value.list items, elementType, _ => do
    let vs ← items.mapM (fun it => convertElementF fuel schemas it elementType)
    pure (.list vs)
  | fuel + 1, schemas, value, elementType, sep =>
    let sv := pyStrip (pyStr value)
    if sv = [] then .ok (.list [])
    else do
      let raw ← pySplitE sep sv
      let parts := raw.map pyStrip
      let vs ← parts.foldlM (fun acc p =>
        if p = [] then pure acc
        else do
          let c ← convertElementF fuel schemas (.str p) elementType
          pure (acc ++ [c])) []
      pure (.list vs)

/-- `ArrayTypeConverter._convert_element` (recursion worker): a basic
element type converts directly, anything else goes back through
`TypeSystem.convert_value` with the default separator (the assembled
`TypeSystem` always sets the back-reference, so the `type_system is None`
fallback is unreachable). -/
def convertElementF : Nat → List (Str × ObjectSchemaConfig) → Value → Str →
    Except Str Value
  | 0, _, _, _ => .error (pys "recursion limit")
  | fuel + 1, schemas, value, elementType =>
    if elementType ∈ scalarTypes then basicConvert value elementType
    else convertValueF fuel schemas value elementType (some (pys ","))

end

/-- `TypeSystem.convert_value`: the worker at a provably sufficient fuel. -/
def convertValue (schemas : List (Str × ObjectSchemaConfig)) (value : Value)
    (typeDef : Str) (sep : Option Str) : Except Str Value :=
  convertValueF (3 * typeDef.length + 1) schemas value typeDef sep

/-- `ArrayTypeConverter.convert`: the worker at a provably sufficient fuel. -/
def arrayConvert (schemas : List (Str × ObjectSchemaConfig)) (value : Value)
    (elementType : Str) (sep : Option Str) : Except Str Value :=
  arrayConvertF (3 * elementType.length + 3) schemas value elementType sep

/-- `ArrayTypeConverter._convert_element`: the worker at a provably
sufficient fuel. -/
def convertElement (schemas : List (Str × ObjectSchemaConfig)) (value : Value)
    (elementType : Str) : Except Str Value :=
  convertElementF (3 * elementType.length + 2) schemas value elementType

/-- `scope_utils.field_matches_scope`. -/
def fieldMatchesScope (fieldScope exportScope : Str) : Bool :=
  if exportScope = pys "sc" then true
  else if exportScope = pys "s" then fieldScope ∈ [pys "s", pys "sc"]
  else if exportScope = pys "c" then fieldScope ∈ [pys "c", pys "sc"]
  else false

/-- `DataProcessor._find_field_config`: first declaration with the name. -/
def findFieldConfig (name : Str) (fieldConfigs : List FieldConfig) : Option FieldConfig :=
  fieldConfigs.find? (fun fc => fc.name = name)

/-- `DataProcessor.process_data`, inner loop body for one declared column
of one row: scope filtering, effective-type resolution and conversion. -/
def processField (schemas : List (Str × ObjectSchemaConfig)) (cfg : ExportConfig)
    (f : ExcelField) (row : Row) (acc : Row) : Except Str Row :=
  match sdictGet? row f.name with
  | Option.none => .ok acc
  | some v =>
    match findFieldConfig f.name cfg.fields with
    | some fc =>
      if fieldMatchesScope fc.scope cfg.scope = false then .ok acc
      else
        let ftype := if truthyS fc.type then fc.type.getD [] else f.type
        do
          let conv ← convertValue schemas v ftype fc.separator
          pure (sdictInsert acc f.name conv)
    | Option.none => do
        let conv ← convertValue schemas v f.type (some (pys ","))
        pure (sdictInsert acc f.name conv)

/-- One row's projection in `DataProcessor.process_data`. -/
def processRow (schemas : List (Str × ObjectSchemaConfig)) (cfg : ExportConfig)
    (fields : List ExcelField) (row : Row) : Except Str Row :=
  fields.foldlM (fun acc f => processField schemas cfg f row acc) []

/-- `DataProcessor._convert_to_primary_key_dict`: key each record by its
primary-key field if present (even if `None`), else by the synthetic
integer key `len(result)`. -/
def toPrimaryKeyDict (rows : List Row) (pk : Str) : List (Value × Row) :=
  rows.foldl (fun res row =>
    match sdictGet? row pk with
    | some v => vdictInsert res v row
    | Option.none => vdictInsert res (.int (res.length : Int)) row) []

/-- `DataProcessor.process_data`: project every row, keep only rows with at
least one surviving field, then key by primary key. -/
def processData (schemas : List (Str × ObjectSchemaConfig)) (ed : ExcelData)
    (cfg : ExportConfig) : Except Str (List (Value × Row)) := do
  let rows ← ed.rows.foldlM (fun acc row => do
      let pr ← processRow schemas cfg ed.fields row
      pure (if pr.isEmpty then acc else acc ++ [pr])) []
  pure (toPrimaryKeyDict rows cfg.primary_key)

/-- The text of one cross-source type-mismatch error of
`DataMerger._validate_schema_compatibility`. -/
def mismatchMsg (name baseT : Str) (i : Nat) (curT : Str) : Str :=
  pys "Field \x27" ++ name ++ pys "\x27 type mismatch: source 0 has \x27" ++ baseT ++
  pys "\x27, source " ++ natStr i ++ pys " has \x27" ++ curT ++ pys "\x27"

/-- A source's `{field.name: field.type}` dict. -/
def fieldsDict (d : ExcelData) : List (Str × Str) :=
  sdictOf (d.fields.map (fun f => (f.name, f.type)))

/-- `DataMerger._validate_schema_compatibility`: compare every later
source's column types against the first source's; no configuration
override is consulted here. -/
def validateSchemaCompat (srcs : List ExcelData) : List Str :=
  match srcs with
  | [] => []
  | [_] => []
  | base :: rest =>
    let baseF := fieldsDict base
    ((List.range rest.length).zip rest).foldl (fun errs ir =>
      errs ++ (fieldsDict ir.2).foldl (fun es nt =>
        match sdictGet? baseF nt.1 with
        | some bt => if bt ≠ nt.2 then es ++ [mismatchMsg nt.1 bt (ir.1 + 1) nt.2] else es
        | Option.none => es) []) []

/-- The `{fc.name: fc.type}` dict of truthy-typed field configurations
built by `DataMerger.validate_schema_with_config_types`. -/
def configTypesOf (cfg : ExportConfig) : List (Str × Str) :=
  cfg.fields.foldl (fun d fc =>
    if truthyS fc.type then sdictInsert d fc.name (fc.type.getD []) else d) []

/-- `DataMerger.validate_schema_with_config_types`: as above, but a field
whose export configuration carries a truthy type override is skipped. -/
def validateSchemaWithConfigTypes (srcs : List ExcelData) (cfg : ExportConfig) : List Str :=
  match srcs with
  | [] => []
  | [_] => []
  | base :: rest =>
    let configTypes := configTypesOf cfg
    let baseF := fieldsDict base
    ((List.range rest.length).zip rest).foldl (fun errs ir =>
      errs ++ (fieldsDict ir.2).foldl (fun es nt =>
        match sdictGet? baseF nt.1 with
        | some bt =>
          if sdictHas configTypes nt.1 then es
          else if bt ≠ nt.2 then
            es ++ [mismatchMsg nt.1 bt (ir.1 + 1) nt.2 ++
              pys ". Consider defining type in config to override Excel types."]
          else es
        | Option.none => es) []) []

/-- The text of one conflict of `DataMerger._check_primary_key_conflicts`. -/
def dupKeyMsg (key : Value) (rowNum : Nat) : Str :=
  pys "Duplicate primary key \x27" ++ pyStr key ++ pys "\x27 at row " ++ natStr rowNum

/-- Worker for `DataMerger._check_primary_key_conflicts`: `i` is the
enumeration index, `seen` the set of keys already seen. -/
def checkPKAux (pk : Str) : List Row → Nat → List Value → List Str
  | [], _, _ => []
  | row :: rest, i, seen =>
    match sdictGet? row pk with
    | some v =>
      if isNoneV v then checkPKAux pk rest (i + 1) seen
      else if seen.any (fun w => pyEq w v) then
        dupKeyMsg v (i + 1) :: checkPKAux pk rest (i + 1) seen
      else
        checkPKAux pk rest (i + 1) (seen ++ [v])
    | Option.none => checkPKAux pk rest (i + 1) seen

/-- `DataMerger._check_primary_key_conflicts`: a row whose primary-key
value (present and non-`None`) was already seen yields a conflict naming
the key and the 1-based row position. -/
def checkPKConflicts (allRows : List Row) (pk : Str) : List Str :=
  checkPKAux pk allRows 0 []

/-- The merge fold of `DataMerger.merge_data_sources`: each row with a
present, non-`None` primary-key value is inserted under that value. -/
def mergeRows (allRows : List Row) (pk : Str) : List (Value × Row) :=
  allRows.foldl (fun acc row =>
    match sdictGet? row pk with
    | some v => if isNoneV v then acc else vdictInsert acc v row
    | Option.none => acc) []

/-- `DataMerger.merge_data_sources`: empty source list yields `{}`;
otherwise the strict schema-compatibility check runs first (raising on any
mismatch), then primary-key conflict detection (raising on any conflict),
then the merge fold. -/
def mergeDataSources (srcs : List ExcelData) (cfg : ExportConfig) :
    Except Str (List (Value × Row)) :=
  if srcs.isEmpty then .ok []
  else
    let schemaErrors := validateSchemaCompat srcs
    if schemaErrors ≠ [] then
      .error (pys "Schema compatibility errors: " ++ pyJoin (pys "; ") schemaErrors)
    else
      let allRows := (srcs.map (·.rows)).flatten
      let conflicts := checkPKConflicts allRows cfg.primary_key
      if conflicts ≠ [] then
        .error (pys "Primary key conflicts: " ++ pyJoin (pys "; ") conflicts)
      else
        .ok (mergeRows allRows cfg.primary_key)

/-- Whether an `Except` result is an error (a modelled Python raise). -/
def exceptIsError : Except Str Value → Bool
  | .error _ => true
  | .ok _ => false

theorem convertF_fuel_irrel (f : Nat) : ∀ g : Nat,
    (∀ schemas value typeDef sep, 3 * typeDef.length < f → 3 * typeDef.length < g →
      convertValueF f schemas value typeDef sep = convertValueF g schemas value typeDef sep) ∧
    (∀ schemas value elementType sep,
      3 * elementType.length + 2 < f → 3 * elementType.length + 2 < g →
      arrayConvertF f schemas value elementType sep = arrayConvertF g schemas value elementType sep) ∧
    (∀ schemas value elementType, 3 * elementType.length + 1 < f → 3 * elementType.length + 1 < g →
      convertElementF f schemas value elementType = convertElementF g schemas value elementType) := by
  induction f with
  | zero =>
    intro g
    refine ⟨fun _ _ _ _ h _ => absurd h (by omega),
            fun _ _ _ _ h _ => absurd h (by omega),
            fun _ _ _ h _ => absurd h (by omega)⟩
  | succ f ih =>
    intro g
    match g with
    | 0 =>
      refine ⟨fun _ _ _ _ _ h => absurd h (by omega),
              fun _ _ _ _ _ h => absurd h (by omega),
              fun _ _ _ _ h => absurd h (by omega)⟩
    | g' + 1 =>
      have ihg := ih g'
      refine ⟨?_, ?_, ?_⟩
      · intro schemas value typeDef sep hf hg
        cases value
        case none => rfl
        all_goals {
          simp only [convertValueF]
          by_cases hsc : pyStrip typeDef ∈ scalarTypes
          · simp [hsc]
          · simp only [if_neg hsc]
            cases hpa : parseArrayType (pyStrip typeDef) with
            | some elemT =>
              have h7 := parseArrayType_length hpa
              have hsl := pyStrip_length_le typeDef
              exact ihg.2.1 schemas _ elemT sep (by omega) (by omega)
            | none => rfl
        }
      · intro schemas value elementType sep hf hg
        have hce : ∀ v, convertElementF f schemas v elementType =
            convertElementF g' schemas v elementType :=
          fun v => ihg.2.2 schemas v elementType (by omega) (by omega)
        cases value
        case none => rfl
        all_goals simp only [arrayConvertF, hce]
      · intro schemas value elementType hf hg
        simp only [convertElementF]
        by_cases hsc : elementType ∈ scalarTypes
        · simp [hsc]
        · simp only [if_neg hsc]
          exact ihg.1 schemas value elementType _ (by omega) (by omega)

/-- The recursion equation of `ArrayTypeConverter._convert_element` in
terms of the sufficient-fuel wrappers. -/
theorem convertElement_eq (schemas : List (Str × ObjectSchemaConfig)) (value : Value)
    (elementType : Str) :
    convertElement schemas value elementType =
      if elementType ∈ scalarTypes then basicConvert value elementType
      else convertValue schemas value elementType (some (pys ",")) := rfl

/-- The recursion equation of `ArrayTypeConverter.convert` in terms of the
sufficient-fuel wrappers. -/
theorem arrayConvert_eq (schemas : List (Str × ObjectSchemaConfig)) (value : Value)
    (elementType : Str) (sep : Option Str) :
    arrayConvert schemas value elementType sep =
      (match value with
      | .none => .ok (.list [])
      | .list items => do
          let vs ← items.mapM (fun it => convertElement schemas it elementType)
          pure (.list vs)
      | _ =>
        let sv := pyStrip (pyStr value)
        if sv = [] then .ok (.list [])
        else do
          let raw ← pySplitE sep sv
          let parts := raw.map pyStrip
          let vs ← parts.foldlM (fun acc p =>
            if p = [] then pure acc
            else do
              let c ← convertElement schemas (.str p) elementType
              pure (acc ++ [c])) []
          pure (.list vs)) := by
  cases value <;> rfl

/-- The recursion equation of `TypeSystem.convert_value` in terms of the
sufficient-fuel wrappers. -/
theorem convertValue_eq (schemas : List (Str × ObjectSchemaConfig)) (value : Value)
    (typeDef : Str) (sep : Option Str) :
    convertValue schemas value typeDef sep =
      (match value with
      | .none => .ok .none
      | _ =>
        let td := pyStrip typeDef
        if td ∈ scalarTypes then basicConvert value td
        else
          match parseArrayType td with
          | some elemT => arrayConvert schemas value elemT sep
          | Option.none =>
            match parseObjectType td with
            | some name => objectConvert schemas value name
            | Option.none => .ok (.str (pyStrip (pyStr value)))) := by
  cases value
  case none => rfl
  all_goals {
    show convertValueF (3 * typeDef.length + 1) _ _ _ _ = _
    simp only [convertValueF]
    by_cases hsc : pyStrip typeDef ∈ scalarTypes
    · simp [hsc]
    · simp only [if_neg hsc]
      cases hpa : parseArrayType (pyStrip typeDef) with
      | some elemT =>
        have h7 := parseArrayType_length hpa
        have hsl := pyStrip_length_le typeDef
        exact (convertF_fuel_irrel _ _).2.1 schemas _ elemT sep (by omega) (by omega)
      | none => rfl
  }

theorem pyStripL_eq_self {s : Str}
    (h : ∀ ch, s.head? = some ch → pyIsSpace ch = false) : pyStripL s = s := by
  cases s with
  | nil => rfl
  | cons a t =>
    unfold pyStripL
    rw [List.dropWhile_cons, if_neg]
    simp [h a rfl]

theorem pyStripR_eq_self {s : Str}
    (h : ∀ ch, s.getLast? = some ch → pyIsSpace ch = false) : pyStripR s = s := by
  unfold pyStripR
  have hrev : s.reverse.dropWhile pyIsSpace = s.reverse := by
    apply pyStripL_eq_self
    intro ch hch
    rw [List.head?_reverse] at hch
    exact h ch hch
  rw [hrev, List.reverse_reverse]

theorem pyStrip_eq_self_of {s : Str}
    (h1 : ∀ ch, s.head? = some ch → pyIsSpace ch = false)
    (h2 : ∀ ch, s.getLast? = some ch → pyIsSpace ch = false) : pyStrip s = s := by
  unfold pyStrip
  rw [pyStripL_eq_self h1, pyStripR_eq_self h2]

theorem pyStripL_eq_self_of_strip {x : Str} (h : pyStrip x = x) : pyStripL x = x := by
  have h1 : (pyStrip x).length ≤ (pyStripL x).length := by
    unfold pyStrip pyStripR
    calc ((pyStripL x).reverse.dropWhile pyIsSpace).reverse.length
        = ((pyStripL x).reverse.dropWhile pyIsSpace).length := List.length_reverse _
      _ ≤ (pyStripL x).reverse.length := (List.dropWhile_sublist _).length_le
      _ = (pyStripL x).length := List.length_reverse _
  have h2 : (pyStripL x).length ≤ x.length := pyStripL_length_le x
  have h3 : x.length ≤ (pyStripL x).length := by
    rw [h] at h1
    exact h1
  exact (List.dropWhile_sublist _).eq_of_length (Nat.le_antisymm h2 h3)

theorem head_not_space_of_strip_eq {x : Str} (h : pyStrip x = x) :
    ∀ ch, x.head? = some ch → pyIsSpace ch = false := by
  intro ch hch
  have hl := pyStripL_eq_self_of_strip h
  cases x with
  | nil => simp at hch
  | cons a t =>
    simp only [List.head?_cons, Option.some.injEq] at hch
    subst hch
    by_contra hsp
    simp only [Bool.not_eq_false] at hsp
    unfold pyStripL at hl
    rw [List.dropWhile_cons, if_pos (by simp [hsp])] at hl
    have := congrArg List.length hl
    have hle : (List.dropWhile pyIsSpace t).length ≤ t.length :=
      (List.dropWhile_sublist pyIsSpace).length_le
    simp only [List.length_cons] at this
    omega

theorem last_not_space_of_strip_eq {x : Str} (h : pyStrip x = x) :
    ∀ ch, x.getLast? = some ch → pyIsSpace ch = false := by
  intro ch hch
  have hl := pyStripL_eq_self_of_strip h
  have hr : pyStripR x = x := by
    have : pyStrip x = pyStripR x := by
      unfold pyStrip
      rw [hl]
    rw [← this, h]
  unfold pyStripR at hr
  have hrev : x.reverse.dropWhile pyIsSpace = x.reverse := by
    have := congrArg List.reverse hr
    rwa [List.reverse_reverse] at this
  have hh : x.reverse.head? = some ch := by
    rw [List.head?_reverse]
    exact hch
  exact @head_not_space_of_strip_eq x.reverse
    (by unfold pyStrip pyStripR pyStripL
        rw [hrev, List.reverse_reverse]
        exact congrArg List.reverse (show List.dropWhile pyIsSpace x = x from hl)) ch hh

theorem pySplitGoF_ne_nil (shead : Char) (stail : Str) :
    ∀ (fuel : Nat) (s acc : Str), pySplitGoF shead stail fuel s acc ≠ [] := by
  intro fuel
  induction fuel with
  | zero => intro s acc; simp [pySplitGoF]
  | succ fuel ih =>
    intro s acc
    cases s with
    | nil => simp [pySplitGoF]
    | cons ch rest =>
      simp only [pySplitGoF]
      split
      · simp
      · exact ih rest (ch :: acc)

theorem pySplitGoF_acc (shead : Char) (stail : Str) :
    ∀ (fuel : Nat) (s acc : Str),
      pySplitGoF shead stail fuel s acc =
        List.modifyHead (fun u => acc.reverse ++ u) (pySplitGoF shead stail fuel s []) := by
  intro fuel
  induction fuel with
  | zero =>
    intro s acc
    simp [pySplitGoF]
  | succ fuel ih =>
    intro s acc
    cases s with
    | nil => simp [pySplitGoF]
    | cons ch rest =>
      simp only [pySplitGoF]
      split
      · simp
      · rw [ih rest (ch :: acc), ih rest [ch]]
        obtain ⟨hd, tl, hpg⟩ :=
          List.exists_cons_of_ne_nil (pySplitGoF_ne_nil shead stail fuel rest [])
        rw [hpg]
        simp [List.modifyHead_cons]

theorem pySplit_single_nil (c : Char) : pySplit [c] [] = [[]] := rfl

theorem pySplit_single_cons (c x : Char) (s : Str) :
    pySplit [c] (x :: s) =
      if x = c then [] :: pySplit [c] s
      else List.modifyHead (fun u => x :: u) (pySplit [c] s) := by
  simp only [pySplit, List.length_cons, pySplitGoF]
  by_cases h : x = c
  · simp [h, List.isPrefixOf]
  · rw [if_neg (by simp [h]), if_neg h]
    rw [pySplitGoF_acc c [] s.length s [x]]
    rfl

theorem pySplit_no_sep {c : Char} {s : Str} (h : c ∉ s) : pySplit [c] s = [s] := by
  induction s with
  | nil => rfl
  | cons x t ih =>
    rw [pySplit_single_cons, if_neg (by intro hx; exact h (hx ▸ List.mem_cons_self x t))]
    rw [ih (fun hc => h (List.mem_cons_of_mem x hc))]
    rfl

theorem pySplit_join_cons {c : Char} {x r : Str} (h : c ∉ x) :
    pySplit [c] (x ++ c :: r) = x :: pySplit [c] r := by
  induction x with
  | nil =>
    rw [List.nil_append, pySplit_single_cons, if_pos rfl]
  | cons a x' ih =>
    rw [List.cons_append, pySplit_single_cons,
      if_neg (by intro hx; exact h (hx ▸ List.mem_cons_self a x')),
      ih (fun hc => h (List.mem_cons_of_mem a hc))]
    rfl

theorem pySplit_pyJoin {c : Char} : ∀ {xs : List Str}, (∀ x ∈ xs, c ∉ x) → xs ≠ [] →
    pySplit [c] (pyJoin [c] xs) = xs := by
  intro xs
  induction xs with
  | nil => intro _ h; exact absurd rfl h
  | cons x rest ih =>
    intro hmem _
    cases rest with
    | nil => exact pySplit_no_sep (hmem x (List.mem_cons_self x []))
    | cons y t =>
      show pySplit [c] (x ++ [c] ++ pyJoin [c] (y :: t)) = x :: y :: t
      rw [List.append_assoc, List.singleton_append,
        pySplit_join_cons (hmem x (List.mem_cons_self x (y :: t)))]
      rw [ih (fun z hz => hmem z (List.mem_cons_of_mem x hz)) (by simp)]

theorem pyJoin_head_not_space {c : Char} (hc : pyIsSpace c = false) :
    ∀ {xs : List Str}, (∀ x ∈ xs, pyStrip x = x) →
      ∀ ch, (pyJoin [c] xs).head? = some ch → pyIsSpace ch = false := by
  intro xs
  induction xs with
  | nil => intro _ ch hch; simp [pyJoin] at hch
  | cons x rest ih =>
    intro hmem ch hch
    cases rest with
    | nil =>
      exact head_not_space_of_strip_eq (hmem x (List.mem_cons_self x [])) ch hch
    | cons y t =>
      have hshape : pyJoin [c] (x :: y :: t) = x ++ [c] ++ pyJoin [c] (y :: t) := rfl
      rw [hshape, List.append_assoc, List.head?_append] at hch
      cases hx : x.head? with
      | some a =>
        rw [hx] at hch
        simp only [Option.or_some, Option.some.injEq] at hch
        subst hch
        exact head_not_space_of_strip_eq (hmem x (List.mem_cons_self x (y :: t))) a hx
      | none =>
        rw [hx] at hch
        simp only [Option.none_or] at hch
        simp only [List.singleton_append, List.head?_cons, Option.some.injEq] at hch
        subst hch
        exact hc

theorem pyJoin_last_not_space {c : Char} (hc : pyIsSpace c = false) :
    ∀ {xs : List Str}, (∀ x ∈ xs, pyStrip x = x) →
      ∀ ch, (pyJoin [c] xs).getLast? = some ch → pyIsSpace ch = false := by
  intro xs
  induction xs with
  | nil => intro _ ch hch; simp [pyJoin] at hch
  | cons x rest ih =>
    intro hmem ch hch
    cases rest with
    | nil =>
      exact last_not_space_of_strip_eq (hmem x (List.mem_cons_self x [])) ch hch
    | cons y t =>
      have hshape : pyJoin [c] (x :: y :: t) = x ++ ([c] ++ pyJoin [c] (y :: t)) := by
        show x ++ [c] ++ pyJoin [c] (y :: t) = _
        rw [List.append_assoc]
      rw [hshape, List.getLast?_append] at hch
      cases hj2 : (pyJoin [c] (y :: t)).getLast? with
      | some b =>
        rw [List.getLast?_append, hj2] at hch
        have : some b = some ch := hch
        injection this with hb
        subst hb
        exact ih (fun z hz => hmem z (List.mem_cons_of_mem x hz)) b hj2
      | none =>
        have hnil : pyJoin [c] (y :: t) = [] := List.getLast?_eq_none_iff.mp hj2
        rw [List.getLast?_append, hnil] at hch
        have : some c = some ch := hch
        injection this with hb
        subst hb
        exact hc

theorem not_scalar_of_long {s : Str} (h7 : 7 ≤ s.length) : s ∉ scalarTypes := by
  intro h
  simp only [scalarTypes, List.mem_cons, List.not_mem_nil, or_false] at h
  rcases h with h | h | h | h <;> (rw [h] at h7; revert h7; decide)

theorem arrayDesc_not_scalar (T : Str) : pys "array<" ++ T ++ pys ">" ∉ scalarTypes := by
  apply not_scalar_of_long
  have h1 : (pys "array<").length = 6 := rfl
  have h2 : (pys ">").length = 1 := rfl
  simp only [List.length_append]
  omega

theorem objectDesc_not_scalar (n : Str) : pys "object:" ++ n ∉ scalarTypes := by
  apply not_scalar_of_long
  have h1 : (pys "object:").length = 7 := rfl
  simp only [List.length_append]
  omega

theorem arrayDesc_getLast (T : Str) :
    (pys "array<" ++ T ++ pys ">").getLast? = some '>' := by
  rw [List.getLast?_append, List.getLast?_append]
  rfl

theorem parseArrayType_concat (T : Str) (h1 : T ≠ []) (h2 : '\n' ∉ T) :
    parseArrayType (pys "array<" ++ T ++ pys ">") = some T := by
  have hlast := arrayDesc_getLast T
  have hdrop : (pys "array<" ++ T ++ pys ">").drop 6 = T ++ pys ">" :=
    List.drop_left (pys "array<") (T ++ pys ">")
  have hbody : reBody (pys "array<" ++ T ++ pys ">") = pys "array<" ++ T ++ pys ">" := by
    unfold reBody
    rw [hlast, if_neg (by simp)]
  simp only [parseArrayType]
  rw [hbody]
  rw [if_pos ⟨List.isPrefixOf_iff_prefix.mpr (List.prefix_append _ _), hlast⟩]
  rw [hdrop, show pys ">" = ['>'] from rfl, List.dropLast_concat]
  rw [if_pos ⟨h1, h2⟩]

theorem objectDesc_getLast {n : Str} (h1 : n ≠ []) (h2 : '\n' ∉ n) :
    (pys "object:" ++ n).getLast? ≠ some '\n' := by
  rw [List.getLast?_append]
  cases hn : n.getLast? with
  | none => exact absurd (List.getLast?_eq_none_iff.mp hn) h1
  | some a =>
    intro hcontra
    have : some a = some '\n' := hcontra
    injection this with ha
    exact h2 (ha ▸ List.mem_of_mem_getLast? hn)

theorem parseObjectType_concat (n : Str) (h1 : n ≠ []) (h2 : '\n' ∉ n) :
    parseObjectType (pys "object:" ++ n) = some n := by
  have hdrop : (pys "object:" ++ n).drop 7 = n := List.drop_left (pys "object:") n
  have hbody : reBody (pys "object:" ++ n) = pys "object:" ++ n := by
    unfold reBody
    rw [if_neg (objectDesc_getLast h1 h2)]
  simp only [parseObjectType]
  rw [hbody]
  rw [if_pos (List.isPrefixOf_iff_prefix.mpr (List.prefix_append _ _))]
  rw [hdrop, if_pos ⟨h1, h2⟩]

theorem parseArrayType_objectDesc (n : Str) (h1 : n ≠ []) (h2 : '\n' ∉ n) :
    parseArrayType (pys "object:" ++ n) = Option.none := by
  have hbody : reBody (pys "object:" ++ n) = pys "object:" ++ n := by
    unfold reBody
    rw [if_neg (objectDesc_getLast h1 h2)]
  simp only [parseArrayType]
  rw [hbody]
  rw [if_neg]
  intro hcontra
  have hpre := List.isPrefixOf_iff_prefix.mp hcontra.1
  obtain ⟨rest, hrest⟩ := hpre
  have hhd : 'a' = 'o' := by
    have h := congrArg List.head? hrest
    simp only [pys] at h
    exact (Option.some.injEq _ _).mp h
  simp at hhd

/-- The `Stats` object schema of the C1 claim: key-value separator `:`,
field separator `,`, members `Attack` then `Defense` with arbitrary
declared member types. -/
def statsSchema (t1 t2 : Str) : ObjectSchemaConfig :=
  ⟨pys "Stats", pys ",", pys ":", [(pys "Attack", t1), (pys "Defense", t2)]⟩

/-- C1: for an object schema whose key-value separator is `:` and field
separator is `,`, declaring members `Attack` then `Defense`, converting the
key-value cell `"Attack:100,Defense:50"` with `object:Stats` yields exactly
the same result as converting the positional cell `"100,50"` — for every
pair of declared member types (in particular every scalar pair), because
notation detection (`:` occurring in the trimmed string) routes the first
cell through key-value parsing and the second through positional parsing,
and both assign `"100"` to `Attack` and `"50"` to `Defense`. -/
theorem objectConvert_two_notations_agree (t1 t2 : Str) :
    convertValue [(pys "Stats", statsSchema t1 t2)] (.str (pys "Attack:100,Defense:50"))
      (pys "object:Stats") (some (pys ",")) =
    convertValue [(pys "Stats", statsSchema t1 t2)] (.str (pys "100,50"))
      (pys "object:Stats") (some (pys ",")) := rfl

/-- C2: the full truth table of `field_matches_scope` on `{s, c, sc}`, and
the defensive default: any other export scope matches no field scope at
all. -/
theorem fieldMatchesScope_truth_table :
    (fieldMatchesScope (pys "s") (pys "s") = true ∧
     fieldMatchesScope (pys "c") (pys "s") = false ∧
     fieldMatchesScope (pys "sc") (pys "s") = true ∧
     fieldMatchesScope (pys "s") (pys "c") = false ∧
     fieldMatchesScope (pys "c") (pys "c") = true ∧
     fieldMatchesScope (pys "sc") (pys "c") = true ∧
     fieldMatchesScope (pys "s") (pys "sc") = true ∧
     fieldMatchesScope (pys "c") (pys "sc") = true ∧
     fieldMatchesScope (pys "sc") (pys "sc") = true) ∧
    (∀ fieldScope exportScope : Str,
      exportScope ≠ pys "sc" → exportScope ≠ pys "s" → exportScope ≠ pys "c" →
      fieldMatchesScope fieldScope exportScope = false) := by
  constructor
  · exact ⟨rfl, rfl, rfl, rfl, rfl, rfl, rfl, rfl, rfl⟩
  · intro fieldScope exportScope hsc hs hc
    unfold fieldMatchesScope
    rw [if_neg hsc, if_neg hs, if_neg hc]

theorem fieldMatchesScope_truth_table_witness :
    fieldMatchesScope (pys "sc") (pys "server") = false :=
  fieldMatchesScope_truth_table.2 (pys "sc") (pys "server")
    (by decide) (by decide) (by decide)

/-- C7: boolean conversion is total — every value converts without a
modelled raise; boolean inputs pass through unchanged; and text yields
`true` exactly when its trimmed, lowercased form is one of the six
affirmative tokens (`true`, `1`, `yes`, `on`, `是`, `真`), all other text
yielding `false`. -/
theorem boolConvert_total :
    (∀ v : Value, ∃ r : Value, basicConvert v (pys "bool") = .ok r) ∧
    (∀ b : Bool, basicConvert (.bool b) (pys "bool") = .ok (.bool b)) ∧
    (∀ s : Str, basicConvert (.str s) (pys "bool") =
      .ok (.bool (boolTokens.contains (pyLower (pyStrip s))))) := by
  refine ⟨?_, ?_, ?_⟩
  · intro v
    cases v <;> exact ⟨_, rfl⟩
  · intro b
    rfl
  · intro s
    rfl

/-- C3 (counterexample): converting the empty string with descriptor `int`
raises a `ConversionError` (from `int('')`), contradicting the claim that
an empty value yields an absent marker without error for all type kinds. -/
theorem convert_empty_string_int_raises :
    exceptIsError (convertValue [] (.str []) (pys "int") (some (pys ","))) = true := by
  decide

/-- C3 (amended): an absent (`None`) value converts to `None` without error
for every descriptor; an empty string yields a neutral marker for `string`
(`""`), `bool` (`false`), `array<T>` (`[]`) and `object:<known name>`
(`{}`); but for `int` and `float` the empty string raises a
`ConversionError`. -/
theorem convert_absent_empty_amended :
    (∀ (schemas : List (Str × ObjectSchemaConfig)) (T : Str) (sep : Option Str),
      convertValue schemas Value.none T sep = .ok Value.none) ∧
    (∀ (schemas : List (Str × ObjectSchemaConfig)) (sep : Option Str),
      convertValue schemas (.str []) (pys "string") sep = .ok (.str [])) ∧
    (∀ (schemas : List (Str × ObjectSchemaConfig)) (sep : Option Str),
      convertValue schemas (.str []) (pys "bool") sep = .ok (.bool false)) ∧
    (∀ (schemas : List (Str × ObjectSchemaConfig)) (sep : Option Str) (T : Str),
      T ≠ [] → '\n' ∉ T →
      convertValue schemas (.str []) (pys "array<" ++ T ++ pys ">") sep = .ok (.list [])) ∧
    (∀ (schemas : List (Str × ObjectSchemaConfig)) (name : Str)
      (sc : ObjectSchemaConfig) (sep : Option Str),
      name ≠ [] → '\n' ∉ name → pyStrip name = name →
      sdictGet? schemas name = some sc →
      convertValue schemas (.str []) (pys "object:" ++ name) sep = .ok (.dict [])) ∧
    exceptIsError (convertValue [] (.str []) (pys "int") (some (pys ","))) = true ∧
    exceptIsError (convertValue [] (.str []) (pys "float") (some (pys ","))) = true := by
  refine ⟨fun schemas T sep => rfl, fun schemas sep => rfl, fun schemas sep => rfl,
    ?_, ?_, by decide, by decide⟩
  · intro schemas sep T hT1 hT2
    rw [convertValue_eq]
    have hstrip : pyStrip (pys "array<" ++ T ++ pys ">") = pys "array<" ++ T ++ pys ">" :=
      pyStrip_eq_self_of
        (fun ch hch => by
          have h5 : some 'a' = some ch := hch
          injection h5 with h5
          exact h5 ▸ rfl)
        (fun ch hch => by
          rw [arrayDesc_getLast] at hch
          injection hch with h5
          exact h5 ▸ rfl)
    show (let td := pyStrip (pys "array<" ++ T ++ pys ">");
      if td ∈ scalarTypes then basicConvert (.str []) td
      else
        match parseArrayType td with
        | some elemT => arrayConvert schemas (.str []) elemT sep
        | Option.none =>
          match parseObjectType td with
          | some nm => objectConvert schemas (.str []) nm
          | Option.none => .ok (.str (pyStrip (pyStr (.str []))))) = .ok (.list [])
    rw [hstrip]
    rw [if_neg (arrayDesc_not_scalar T), parseArrayType_concat T hT1 hT2]
    rfl
  · intro schemas name sc sep h1 h2 h3 h4
    rw [convertValue_eq]
    have hstrip : pyStrip (pys "object:" ++ name) = pys "object:" ++ name :=
      pyStrip_eq_self_of
        (fun ch hch => by
          have h5 : some 'o' = some ch := hch
          injection h5 with h5
          exact h5 ▸ rfl)
        (fun ch hch => by
          rw [List.getLast?_append] at hch
          cases hn : name.getLast? with
          | none => exact absurd (List.getLast?_eq_none_iff.mp hn) h1
          | some a =>
            rw [hn] at hch
            have h5 : some a = some ch := hch
            injection h5 with h5
            exact h5 ▸ last_not_space_of_strip_eq h3 a hn)
    show (let td := pyStrip (pys "object:" ++ name);
      if td ∈ scalarTypes then basicConvert (.str []) td
      else
        match parseArrayType td with
        | some elemT => arrayConvert schemas (.str []) elemT sep
        | Option.none =>
          match parseObjectType td with
          | some nm => objectConvert schemas (.str []) nm
          | Option.none => .ok (.str (pyStrip (pyStr (.str []))))) = .ok (.dict [])
    rw [hstrip]
    rw [if_neg (objectDesc_not_scalar name), parseArrayType_objectDesc name h1 h2,
      parseObjectType_concat name h1 h2]
    show objectConvert schemas (Value.str []) name = .ok (.dict [])
    unfold objectConvert
    rw [h4]
    rfl

theorem convert_absent_empty_amended_witness :
    convertValue [] Value.none (pys "int") (some (pys ",")) = .ok Value.none ∧
    convertValue [] (.str []) (pys "array<" ++ pys "int" ++ pys ">") (some (pys ",")) =
      .ok (.list []) ∧
    convertValue [(pys "S", statsSchema (pys "int") (pys "int"))] (.str [])
      (pys "object:" ++ pys "S") (some (pys ",")) = .ok (.dict []) :=
  ⟨convert_absent_empty_amended.1 [] (pys "int") (some (pys ",")),
   convert_absent_empty_amended.2.2.2.1 [] (some (pys ",")) (pys "int")
     (by decide) (by decide),
   convert_absent_empty_amended.2.2.2.2.1 [(pys "S", statsSchema (pys "int") (pys "int"))]
     (pys "S") (statsSchema (pys "int") (pys "int")) (some (pys ","))
     (by decide) (by decide) (by decide) rfl⟩

theorem dropWhile_head_not (p : Char → Bool) :
    ∀ (l : Str) (ch : Char), (l.dropWhile p).head? = some ch → p ch = false := by
  intro l
  induction l with
  | nil => intro ch hch; simp at hch
  | cons a t ih =>
    intro ch hch
    rw [List.dropWhile_cons] at hch
    by_cases hp : p a
    · rw [if_pos hp] at hch
      exact ih ch hch
    · rw [if_neg hp] at hch
      have h5 : some a = some ch := hch
      injection h5 with h5
      subst h5
      simpa using hp

theorem pyStripR_prefix (z : Str) : pyStripR z <+: z := by
  unfold pyStripR
  have h : List.dropWhile pyIsSpace z.reverse <:+ z.reverse :=
    List.dropWhile_suffix pyIsSpace
  have h2 := List.reverse_prefix.mpr h
  rwa [List.reverse_reverse] at h2

theorem pyStripR_idem (z : Str) : pyStripR (pyStripR z) = pyStripR z := by
  unfold pyStripR
  rw [List.reverse_reverse, List.dropWhile_idempotent]

theorem pyStrip_idem (s : Str) : pyStrip (pyStrip s) = pyStrip s := by
  by_cases hnil : pyStrip s = []
  · rw [hnil]; rfl
  · have hL : pyStripL (pyStrip s) = pyStrip s := by
      apply pyStripL_eq_self
      intro ch hch
      unfold pyStrip at hch
      have hpre : pyStripR (pyStripL s) <+: pyStripL s := pyStripR_prefix _
      obtain ⟨t, ht⟩ := hpre
      have hne : pyStripR (pyStripL s) ≠ [] := hnil
      have hh : (pyStripL s).head? = some ch := by
        rw [← ht, List.head?_append]
        obtain ⟨b, L, hb⟩ := List.exists_cons_of_ne_nil hne
        rw [hb] at hch ⊢
        simpa using hch
      exact dropWhile_head_not pyIsSpace s ch (by
        unfold pyStripL at hh
        exact hh)
    show pyStripR (pyStripL (pyStrip s)) = pyStrip s
    rw [hL]
    show pyStripR (pyStripR (pyStripL s)) = pyStrip s
    rw [pyStripR_idem]
    rfl

theorem mapM_except_ok {α : Type} (g : α → Value) :
    ∀ (l : List α), (l.mapM (fun a => (Except.ok (g a) : Except Str Value))) = .ok (l.map g) := by
  intro l
  induction l with
  | nil => rfl
  | cons a t ih =>
    rw [List.mapM_cons, ih]
    rfl

theorem foldlM_filter_mapM (f : Str → Except Str Value) :
    ∀ (parts : List Str) (init : List Value),
      (parts.foldlM (fun acc p =>
        if p = [] then pure acc
        else do
          let c ← f p
          pure (acc ++ [c])) init)
        = (match (parts.filter (fun p => p ≠ [])).mapM f with
           | .error e => .error e
           | .ok vs => .ok (init ++ vs)) := by
  intro parts
  induction parts with
  | nil =>
    intro init
    rw [List.foldlM_nil,
      show (List.filter (fun p => decide (p ≠ [])) ([] : List Str)) = ([] : List Str) from rfl,
      List.mapM_nil]
    show Except.ok init = Except.ok (init ++ [])
    rw [List.append_nil]
  | cons p ps ih =>
    intro init
    rw [List.foldlM_cons]
    by_cases hp : p = []
    · rw [if_pos hp]
      have hfil : (p :: ps).filter (fun q => q ≠ []) = ps.filter (fun q => q ≠ []) := by
        simp [List.filter_cons, hp]
      rw [hfil]
      show (ps.foldlM _ init) = _
      exact ih init
    · rw [if_neg hp]
      have hfil : (p :: ps).filter (fun q => q ≠ []) = p :: ps.filter (fun q => q ≠ []) := by
        simp [List.filter_cons, hp]
      rw [hfil, List.mapM_cons]
      cases hf : f p with
      | error e => rfl
      | ok c =>
        show (ps.foldlM _ (init ++ [c])) = _
        rw [ih (init ++ [c])]
        cases hm : (ps.filter (fun q => q ≠ [])).mapM f with
        | error e => rfl
        | ok vs =>
          show Except.ok (init ++ [c] ++ vs) = Except.ok (init ++ (c :: vs))
          rw [List.append_assoc]
          rfl

theorem ok_bind {α β : Type} (a : α) (k : α → Except Str β) :
    ((Except.ok a : Except Str α) >>= k) = k a := rfl

theorem mapM_total {f : Value → Except Str Value} (h : ∀ a : Value, ∃ b, f a = .ok b) :
    ∀ l : List Value, ∃ bs, l.mapM f = .ok bs := by
  intro l
  induction l with
  | nil => exact ⟨[], rfl⟩
  | cons a t ih =>
    obtain ⟨b, hb⟩ := h a
    obtain ⟨bs, hbs⟩ := ih
    refine ⟨b :: bs, ?_⟩
    rw [List.mapM_cons, hb, ok_bind, hbs, ok_bind]
    rfl

/-- The non-`None`, non-list branch of `ArrayTypeConverter.convert`:
stringify, trim, split, convert the non-empty trimmed segments. -/
theorem arrayConvert_string_branch (schemas : List (Str × ObjectSchemaConfig)) (T : Str)
    (v : Value) (hv1 : v ≠ Value.none) (hv2 : ∀ items, v ≠ .list items) (sep : Option Str) :
    arrayConvert schemas v T sep =
      (if pyStrip (pyStr v) = [] then Except.ok (Value.list [])
       else do
         let raw ← pySplitE sep (pyStrip (pyStr v))
         let parts := raw.map pyStrip
         let vs ← parts.foldlM (fun acc p =>
           if p = [] then pure acc
           else do
             let c ← convertElement schemas (.str p) T
             pure (acc ++ [c])) []
         pure (.list vs)) := by
  cases v
  case none => exact absurd rfl hv1
  case list items => exact absurd rfl (hv2 items)
  all_goals rfl

/-- C10: with an element type that is neither a recognized scalar nor an
`array<...>` nor an `object:...` descriptor, array conversion never raises:
each element goes through the recursive `convert_value` call, whose
lenient unknown-descriptor fallback returns the trimmed string
representation.  Stated as: (1) each element converts to its trimmed
string representation (`None` passing through); (2) a string cell converts
to exactly the list of its trimmed non-empty segments as strings; (3)
conversion succeeds for every value under any sane separator. -/
theorem arrayConvert_unknown_element_type (schemas : List (Str × ObjectSchemaConfig))
    (T : Str) (hT : pyStrip T ∉ scalarTypes)
    (hTa : parseArrayType (pyStrip T) = Option.none)
    (hTo : parseObjectType (pyStrip T) = Option.none) :
    (∀ v : Value, convertElement schemas v T =
      .ok (match v with
           | Value.none => Value.none
           | w => .str (pyStrip (pyStr w)))) ∧
    (∀ (s : Str) (sepS : Str), sepS ≠ [] →
      arrayConvert schemas (.str s) T (some sepS) =
        .ok (.list ((((pySplit sepS (pyStrip s)).map pyStrip).filter
          (fun p => p ≠ [])).map Value.str))) ∧
    (∀ (v : Value) (sep : Option Str), sep ≠ some [] →
      ∃ vs : List Value, arrayConvert schemas v T sep = .ok (.list vs)) := by
  have hTs : T ∉ scalarTypes := by
    intro h
    apply hT
    have h2 : pyStrip T = T := by
      simp only [scalarTypes, List.mem_cons, List.not_mem_nil, or_false] at h
      rcases h with rfl | rfl | rfl | rfl <;> rfl
    rw [h2]
    exact h
  have helem : ∀ v : Value, convertElement schemas v T =
      .ok (match v with
           | Value.none => Value.none
           | w => .str (pyStrip (pyStr w))) := by
    intro v
    rw [convertElement_eq, if_neg hTs, convertValue_eq]
    cases v
    case none => rfl
    all_goals {
      show (let td := pyStrip T;
        if td ∈ scalarTypes then basicConvert _ td
        else
          match parseArrayType td with
          | some elemT => arrayConvert schemas _ elemT (some (pys ","))
          | Option.none =>
            match parseObjectType td with
            | some nm => objectConvert schemas _ nm
            | Option.none => .ok (.str (pyStrip (pyStr _)))) = _
      rw [if_neg hT, hTa, hTo]
    }
  have hstringPath : ∀ (parts : List Str) (init : List Value),
      (parts.foldlM (fun acc p =>
        if p = [] then pure acc
        else do
          let c ← convertElement schemas (.str p) T
          pure (acc ++ [c])) init)
        = .ok (init ++ ((parts.filter (fun p => p ≠ [])).map
            (fun p => Value.str (pyStrip p)))) := by
    intro parts init
    rw [foldlM_filter_mapM]
    have hfun : (fun p => convertElement schemas (Value.str p) T) =
        (fun p => (Except.ok (Value.str (pyStrip p)) : Except Str Value)) := by
      funext p
      rw [helem (Value.str p)]
      rfl
    rw [hfun, mapM_except_ok]

  have hmapeq : ∀ (raw : List Str),
      (((raw.map pyStrip).filter (fun p => p ≠ [])).map (fun p => Value.str (pyStrip p)))
        = (((raw.map pyStrip).filter (fun p => p ≠ [])).map Value.str) := by
    intro raw
    apply List.map_congr_left
    intro p hp
    have hp2 : p ∈ raw.map pyStrip := List.mem_of_mem_filter hp
    obtain ⟨x, _, rfl⟩ := List.mem_map.mp hp2
    rw [pyStrip_idem]
  refine ⟨helem, ?_, ?_⟩
  · intro s sepS hsep
    obtain ⟨sh, st, rfl⟩ := List.exists_cons_of_ne_nil hsep
    rw [arrayConvert_string_branch schemas T (.str s) (by simp) (by simp) (some (sh :: st))]
    by_cases hsv : pyStrip (pyStr (Value.str s)) = []
    · rw [if_pos hsv]
      have hsv2 : pyStrip s = [] := hsv
      rw [hsv2]
      rfl
    · rw [if_neg hsv]
      rw [show pySplitE (some (sh :: st)) (pyStrip (pyStr (Value.str s)))
        = .ok (pySplit (sh :: st) (pyStrip s)) from rfl]
      simp only [ok_bind]
      rw [hstringPath, hmapeq]
      rfl
  · intro v sep hsep
    have hsplitOk : ∀ t : Str, ∃ raw, pySplitE sep t = .ok raw := by
      intro t
      match sep with
      | Option.none => exact ⟨_, rfl⟩
      | some [] => exact absurd rfl hsep
      | some (sh :: st) => exact ⟨_, rfl⟩
    have htot : ∀ v : Value, v ≠ Value.none → (∀ items, v ≠ .list items) →
        ∃ vs, arrayConvert schemas v T sep = .ok (.list vs) := by
      intro v hv1 hv2
      rw [arrayConvert_string_branch schemas T v hv1 hv2 sep]
      by_cases hsv : pyStrip (pyStr v) = []
      · rw [if_pos hsv]
        exact ⟨[], rfl⟩
      · rw [if_neg hsv]
        obtain ⟨raw, hraw⟩ := hsplitOk (pyStrip (pyStr v))
        rw [hraw]
        simp only [ok_bind]
        rw [hstringPath]
        simp only [ok_bind]
        exact ⟨_, rfl⟩
    cases v
    case none => exact ⟨[], rfl⟩
    case list items =>
      obtain ⟨bs, hbs⟩ := mapM_total (fun it => ⟨_, helem it⟩) items
      refine ⟨bs, ?_⟩
      rw [arrayConvert_eq]
      show ((items.mapM (fun it => convertElement schemas it T)) >>=
        (fun vs => (pure (Value.list vs) : Except Str Value))) = Except.ok (Value.list bs)
      rw [hbs, ok_bind]
      rfl
    all_goals exact htot _ (by simp) (fun _ => by simp)

theorem arrayConvert_unknown_element_type_witness :
    convertElement [] (.str (pys " x ")) (pys "weird") = .ok (.str (pys "x")) ∧
    arrayConvert [] (.str (pys "a, b ,,c")) (pys "weird") (some (pys ",")) =
      .ok (.list [.str (pys "a"), .str (pys "b"), .str (pys "c")]) ∧
    (∃ vs, arrayConvert [] (.int 5) (pys "weird") (some (pys ",")) = .ok (.list vs)) := by
  have h := arrayConvert_unknown_element_type [] (pys "weird")
    (by decide) (by decide) (by decide)
  refine ⟨h.1 (.str (pys " x ")), ?_, h.2.2 (.int 5) (some (pys ",")) (by decide)⟩
  rw [h.2.1 (pys "a, b ,,c") (pys ",") (by decide)]
  rfl

theorem convertElement_eq_convertValue (schemas : List (Str × ObjectSchemaConfig))
    (v : Value) (e : Str) :
    convertElement schemas v e = convertValue schemas v e (some (pys ",")) := by
  by_cases h : e ∈ scalarTypes
  · have h2 := h
    simp only [scalarTypes, List.mem_cons, List.not_mem_nil, or_false] at h2
    rcases h2 with rfl | rfl | rfl | rfl <;> (cases v <;> rfl)
  · rw [convertElement_eq, if_neg h]

/-- C6: for every element type `T`, single-character separator `c` and
list of trimmed segments none of which contains `c`, converting the
`c`-joined string with descriptor `array<T>` and separator `c` yields
exactly the elementwise conversions of the non-empty segments under `T`
(the recursion using the default separator, as the code does); empty
segments are discarded. -/
theorem arrayConvert_joined (schemas : List (Str × ObjectSchemaConfig))
    (T : Str) (c : Char) (xs : List Str)
    (hT1 : T ≠ []) (hT2 : '\n' ∉ T) (hc : pyIsSpace c = false)
    (hxs : ∀ x ∈ xs, pyStrip x = x ∧ c ∉ x) :
    convertValue schemas (.str (pyJoin [c] xs)) (pys "array<" ++ T ++ pys ">") (some [c]) =
      (match (xs.filter (fun x => x ≠ [])).mapM
        (fun x => convertValue schemas (.str x) T (some (pys ","))) with
       | .error e => .error e
       | .ok vs => .ok (.list vs)) := by
  rw [convertValue_eq]
  have hstrip : pyStrip (pys "array<" ++ T ++ pys ">") = pys "array<" ++ T ++ pys ">" :=
    pyStrip_eq_self_of
      (fun ch hch => by
        have h5 : some 'a' = some ch := hch
        injection h5 with h5
        exact h5 ▸ rfl)
      (fun ch hch => by
        rw [arrayDesc_getLast] at hch
        injection hch with h5
        exact h5 ▸ rfl)
  show (let td := pyStrip (pys "array<" ++ T ++ pys ">");
    if td ∈ scalarTypes then basicConvert _ td
    else
      match parseArrayType td with
      | some elemT => arrayConvert schemas _ elemT (some [c])
      | Option.none =>
        match parseObjectType td with
        | some nm => objectConvert schemas _ nm
        | Option.none => .ok (.str (pyStrip (pyStr _)))) = _
  rw [hstrip, if_neg (arrayDesc_not_scalar T), parseArrayType_concat T hT1 hT2]
  show arrayConvert schemas (Value.str (pyJoin [c] xs)) T (some [c]) = _
  rw [arrayConvert_string_branch schemas T (.str (pyJoin [c] xs)) (by simp) (by simp) (some [c])]
  have hJ : pyStrip (pyStr (Value.str (pyJoin [c] xs))) = pyJoin [c] xs :=
    pyStrip_eq_self_of (pyJoin_head_not_space hc (fun x hx => (hxs x hx).1))
      (pyJoin_last_not_space hc (fun x hx => (hxs x hx).1))
  rw [hJ]
  by_cases hnil : pyJoin [c] xs = []
  · rw [if_pos hnil]
    have hfe : xs.filter (fun x => x ≠ []) = [] := by
      cases xs with
      | nil => rfl
      | cons x rest =>
        cases rest with
        | nil =>
          have hx : x = [] := hnil
          subst hx
          rfl
        | cons y t =>
          exfalso
          have hshape : pyJoin [c] (x :: y :: t) = x ++ [c] ++ pyJoin [c] (y :: t) := rfl
          rw [hshape] at hnil
          simp at hnil
    rw [hfe]
    rfl
  · rw [if_neg hnil]
    have hxsne : xs ≠ [] := fun h => hnil (by rw [h]; rfl)
    rw [show pySplitE (some [c]) (pyJoin [c] xs)
      = .ok (pySplit [c] (pyJoin [c] xs)) from rfl]
    simp only [ok_bind]
    rw [pySplit_pyJoin (fun x hx => (hxs x hx).2) hxsne]
    have hmap : xs.map pyStrip = xs := by
      have h1 : xs.map pyStrip = xs.map id := List.map_congr_left (fun x hx => (hxs x hx).1)
      rw [h1, List.map_id]
    rw [hmap]
    rw [foldlM_filter_mapM (fun p => convertElement schemas (.str p) T)]
    have hfun : (fun p => convertElement schemas (Value.str p) T) =
        (fun p => convertValue schemas (Value.str p) T (some (pys ","))) := by
      funext p
      exact convertElement_eq_convertValue schemas (Value.str p) T
    rw [hfun]
    cases hm : (xs.filter (fun x => x ≠ [])).mapM
        (fun x => convertValue schemas (.str x) T (some (pys ","))) with
    | error e => rfl
    | ok vs => rfl

theorem arrayConvert_joined_witness :
    convertValue [] (.str (pyJoin [','] [pys "1", pys "", pys "23"]))
      (pys "array<" ++ pys "int" ++ pys ">") (some [',']) =
      .ok (.list [.int 1, .int 23]) := by
  rw [arrayConvert_joined [] (pys "int") ',' [pys "1", pys "", pys "23"]
    (by decide) (by decide) (by decide) (by decide)]
  rfl

/-- Two one-row sources with a common column `Price` whose declared Excel
types differ (`int` vs `float`), and an export configuration that declares
an explicit `float` type override for `Price`. -/
def overrideSrc1 : ExcelData :=
  ⟨[⟨pys "ID", pys "int"⟩, ⟨pys "Price", pys "int"⟩],
   [[(pys "ID", .int 1), (pys "Price", .int 10)]]⟩

def overrideSrc2 : ExcelData :=
  ⟨[⟨pys "ID", pys "int"⟩, ⟨pys "Price", pys "float"⟩],
   [[(pys "ID", .int 2), (pys "Price", .float 2)]]⟩

def overrideCfg : ExportConfig :=
  ⟨pys "sc", pys "ID",
   [⟨pys "Price", some (pys "float"), pys "sc", some (pys ",")⟩]⟩

/-- C4 (counterexample): despite the explicit type override for `Price` in
the export configuration, the blocking merge path `merge_data_sources`
raises a schema-compatibility error for the cross-source `Price` type
mismatch — the merge does not proceed, because `merge_data_sources` runs
`_validate_schema_compatibility`, which never consults the configuration. -/
theorem merge_override_counterexample :
    (overrideCfg.fields.any (fun fc => fc.name == pys "Price" && truthyS fc.type)) = true ∧
    sdictHas (configTypesOf overrideCfg) (pys "Price") = true ∧
    mergeDataSources [overrideSrc1, overrideSrc2] overrideCfg =
      .error (pys "Schema compatibility errors: Field \x27Price\x27 type mismatch: source 0 has \x27int\x27, source 1 has \x27float\x27") := by
  refine ⟨by decide, by decide, ?_⟩
  rfl

/-- C4 (amended): in the blocking path, `merge_data_sources` raises on any
non-empty result of the override-blind `_validate_schema_compatibility`,
regardless of configuration type overrides; only the separate advisory
check `validate_schema_with_config_types` (used by the CLI for warnings)
suppresses a cross-source mismatch for every common field that carries a
truthy configuration type override. -/
theorem merge_override_amended :
    (∀ (srcs : List ExcelData) (cfg : ExportConfig), validateSchemaCompat srcs ≠ [] →
      mergeDataSources srcs cfg =
        .error (pys "Schema compatibility errors: " ++
          pyJoin (pys "; ") (validateSchemaCompat srcs))) ∧
    (∀ (d1 d2 : ExcelData) (cfg : ExportConfig),
      (∀ nt ∈ fieldsDict d2, ∀ bt, sdictGet? (fieldsDict d1) nt.1 = some bt →
        bt ≠ nt.2 → sdictHas (configTypesOf cfg) nt.1 = true) →
      validateSchemaWithConfigTypes [d1, d2] cfg = []) := by
  constructor
  · intro srcs cfg herr
    cases srcs with
    | nil => exact absurd rfl herr
    | cons d rest =>
      show (if (d :: rest).isEmpty = true then Except.ok []
        else if validateSchemaCompat (d :: rest) ≠ [] then
          Except.error (pys "Schema compatibility errors: " ++
            pyJoin (pys "; ") (validateSchemaCompat (d :: rest)))
        else
          if checkPKConflicts ((List.map ExcelData.rows (d :: rest)).flatten)
              cfg.primary_key ≠ [] then
            Except.error (pys "Primary key conflicts: " ++ pyJoin (pys "; ")
              (checkPKConflicts ((List.map ExcelData.rows (d :: rest)).flatten)
                cfg.primary_key))
          else Except.ok (mergeRows ((List.map ExcelData.rows (d :: rest)).flatten)
            cfg.primary_key)) = _
      rw [if_neg (by simp), if_pos herr]
  · intro d1 d2 cfg hover
    show ([] ++ (fieldsDict d2).foldl (fun es nt =>
      match sdictGet? (fieldsDict d1) nt.1 with
      | some bt =>
        if sdictHas (configTypesOf cfg) nt.1 then es
        else if bt ≠ nt.2 then
          es ++ [mismatchMsg nt.1 bt (0 + 1) nt.2 ++
            pys ". Consider defining type in config to override Excel types."]
        else es
      | Option.none => es) []) = []
    rw [List.nil_append]
    have haux : ∀ (items : List (Str × Str)) (es : List Str),
        (∀ nt ∈ items, ∀ bt, sdictGet? (fieldsDict d1) nt.1 = some bt →
          bt ≠ nt.2 → sdictHas (configTypesOf cfg) nt.1 = true) →
        items.foldl (fun es nt =>
          match sdictGet? (fieldsDict d1) nt.1 with
          | some bt =>
            if sdictHas (configTypesOf cfg) nt.1 then es
            else if bt ≠ nt.2 then
              es ++ [mismatchMsg nt.1 bt (0 + 1) nt.2 ++
                pys ". Consider defining type in config to override Excel types."]
            else es
          | Option.none => es) es = es := by
      intro items
      induction items with
      | nil => intro es _; rfl
      | cons nt rest ih =>
        intro es hyp
        rw [List.foldl_cons]
        cases hget : sdictGet? (fieldsDict d1) nt.1 with
        | none => exact ih es (fun m hm => hyp m (List.mem_cons_of_mem nt hm))
        | some bt =>
          show List.foldl _
            (if sdictHas (configTypesOf cfg) nt.1 then es
             else if bt ≠ nt.2 then
               es ++ [mismatchMsg nt.1 bt (0 + 1) nt.2 ++
                 pys ". Consider defining type in config to override Excel types."]
             else es) rest = es
          by_cases hhas : sdictHas (configTypesOf cfg) nt.1
          · rw [if_pos hhas]
            exact ih es (fun m hm => hyp m (List.mem_cons_of_mem nt hm))
          · by_cases hne : bt ≠ nt.2
            · exact absurd (hyp nt (List.mem_cons_self nt rest) bt hget hne) hhas
            · rw [if_neg hhas, if_neg hne]
              exact ih es (fun m hm => hyp m (List.mem_cons_of_mem nt hm))
    exact haux (fieldsDict d2) [] hover

theorem merge_override_amended_witness :
    mergeDataSources [overrideSrc1, overrideSrc2] overrideCfg =
      .error (pys "Schema compatibility errors: " ++
        pyJoin (pys "; ") (validateSchemaCompat [overrideSrc1, overrideSrc2])) ∧
    validateSchemaWithConfigTypes [overrideSrc1, overrideSrc2] overrideCfg = [] :=
  ⟨merge_override_amended.1 [overrideSrc1, overrideSrc2] overrideCfg (by decide),
   merge_override_amended.2 overrideSrc1 overrideSrc2 overrideCfg (by decide)⟩

theorem vdictInsert_val_mem {d : List (Value × Row)} {k : Value} {v : Row}
    {p : Value × Row} (hp : p ∈ vdictInsert d k v) : p.2 = v ∨ p ∈ d := by
  unfold vdictInsert at hp
  split at hp
  · obtain ⟨q, hq, hpq⟩ := List.mem_map.mp hp
    by_cases hqe : pyEq q.1 k
    · rw [if_pos hqe] at hpq
      left
      rw [← hpq]
    · rw [if_neg hqe] at hpq
      right
      rw [← hpq]
      exact hq
  · rcases List.mem_append.mp hp with h | h
    · right; exact h
    · left
      have : p = (k, v) := List.mem_singleton.mp h
      rw [this]

theorem vdictInsert_key_mem {d : List (Value × Row)} {k : Value} {v : Row}
    {p : Value × Row} (hp : p ∈ vdictInsert d k v) :
    (∃ q ∈ d, p.1 = q.1) ∨ p.1 = k := by
  unfold vdictInsert at hp
  split at hp
  · obtain ⟨q, hq, hpq⟩ := List.mem_map.mp hp
    left
    refine ⟨q, hq, ?_⟩
    by_cases hqe : pyEq q.1 k
    · rw [if_pos hqe] at hpq
      rw [← hpq]
    · rw [if_neg hqe] at hpq
      rw [← hpq]
  · rcases List.mem_append.mp hp with h | h
    · left
      exact ⟨p, h, rfl⟩
    · right
      have : p = (k, v) := List.mem_singleton.mp h
      rw [this]

theorem toPrimaryKeyDict_vals {P : Row → Prop} :
    ∀ (rows : List Row) (pk : Str), (∀ r ∈ rows, P r) →
      ∀ p ∈ toPrimaryKeyDict rows pk, P p.2 := by
  have haux : ∀ (rows : List Row) (pk : Str) (acc : List (Value × Row)),
      (∀ r ∈ rows, P r) → (∀ p ∈ acc, P p.2) →
      ∀ p ∈ rows.foldl (fun res row =>
        match sdictGet? row pk with
        | some v => vdictInsert res v row
        | Option.none => vdictInsert res (.int (res.length : Int)) row) acc, P p.2 := by
    intro rows
    induction rows with
    | nil => intro pk acc _ hacc p hp; exact hacc p hp
    | cons row rest ih =>
      intro pk acc hrows hacc p hp
      rw [List.foldl_cons] at hp
      have hrow : P row := hrows row (List.mem_cons_self row rest)
      have hrest : ∀ r ∈ rest, P r := fun r hr => hrows r (List.mem_cons_of_mem row hr)
      have hacc2 : ∀ q ∈ (match sdictGet? row pk with
          | some v => vdictInsert acc v row
          | Option.none => vdictInsert acc (.int (acc.length : Int)) row), P q.2 := by
        intro q hq
        cases hget : sdictGet? row pk with
        | some v =>
          rw [hget] at hq
          rcases vdictInsert_val_mem hq with h | h
          · rw [h]; exact hrow
          · exact hacc q h
        | none =>
          rw [hget] at hq
          rcases vdictInsert_val_mem hq with h | h
          · rw [h]; exact hrow
          · exact hacc q h
      exact ih pk _ hrest hacc2 p hp
  intro rows pk hrows p hp
  exact haux rows pk [] hrows (by intro q hq; simp at hq) p hp

theorem processData_rows_nonempty (schemas : List (Str × ObjectSchemaConfig))
    (cfg : ExportConfig) (fields : List ExcelField) :
    ∀ (rws : List Row) (acc rows : List Row), (∀ r ∈ acc, r ≠ []) →
      (rws.foldlM (fun acc row => do
        let pr ← processRow schemas cfg fields row
        pure (if pr.isEmpty then acc else acc ++ [pr])) acc) = .ok rows →
      ∀ r ∈ rows, r ≠ [] := by
  intro rws
  induction rws with
  | nil =>
    intro acc rows hacc hfold
    rw [List.foldlM_nil] at hfold
    have : acc = rows := by
      injection hfold
    rw [← this]
    exact hacc
  | cons row rest ih =>
    intro acc rows hacc hfold
    rw [List.foldlM_cons] at hfold
    cases hpr : processRow schemas cfg fields row with
    | error e =>
      rw [hpr] at hfold
      exact absurd hfold (by simp [Bind.bind, Except.bind])
    | ok pr =>
      rw [hpr] at hfold
      have hfold2 : (rest.foldlM (fun acc row => do
          let pr ← processRow schemas cfg fields row
          pure (if pr.isEmpty then acc else acc ++ [pr]))
          (if pr.isEmpty then acc else acc ++ [pr])) = .ok rows := hfold
      apply ih _ rows _ hfold2
      by_cases hemp : pr.isEmpty
      · rw [if_pos hemp]
        exact hacc
      · rw [if_neg hemp]
        intro r hr
        rcases List.mem_append.mp hr with h | h
        · exact hacc r h
        · have : r = pr := List.mem_singleton.mp h
          rw [this]
          intro hnil
          rw [hnil] at hemp
          exact hemp rfl

/-- C8: in the Data Processor, (1) a row projecting to zero surviving
fields never appears in the output Keyed Dataset — every record in the
result is non-empty; and (2) a surviving record lacking the primary-key
field is inserted under the synthetic integer key equal to the number of
records already inserted at that point (`len(result)`). -/
theorem processData_discard_and_synthetic_key :
    (∀ (schemas : List (Str × ObjectSchemaConfig)) (ed : ExcelData) (cfg : ExportConfig)
      (d : List (Value × Row)), processData schemas ed cfg = .ok d →
      ∀ p ∈ d, p.2 ≠ []) ∧
    (∀ (rows : List Row) (row : Row) (pk : Str), sdictGet? row pk = Option.none →
      toPrimaryKeyDict (rows ++ [row]) pk =
        vdictInsert (toPrimaryKeyDict rows pk)
          (.int ((toPrimaryKeyDict rows pk).length : Int)) row) := by
  constructor
  · intro schemas ed cfg d hproc p hp
    unfold processData at hproc
    cases hfold : (ed.rows.foldlM (fun acc row => do
        let pr ← processRow schemas cfg ed.fields row
        pure (if pr.isEmpty then acc else acc ++ [pr])) ([] : List Row)) with
    | error e =>
      rw [hfold] at hproc
      exact absurd hproc (by simp [Bind.bind, Except.bind])
    | ok rows =>
      rw [hfold] at hproc
      have hd : d = toPrimaryKeyDict rows cfg.primary_key := by
        have : Except.ok (toPrimaryKeyDict rows cfg.primary_key) =
            (Except.ok d : Except Str (List (Value × Row))) := hproc
        injection this with h
        exact h.symm
      have hne : ∀ r ∈ rows, r ≠ [] :=
        processData_rows_nonempty schemas cfg ed.fields ed.rows [] rows
          (by intro r hr; simp at hr) hfold
      rw [hd] at hp
      exact toPrimaryKeyDict_vals rows cfg.primary_key hne p hp
  · intro rows row pk hget
    unfold toPrimaryKeyDict
    rw [List.foldl_append]
    show (match sdictGet? row pk with
      | some v => vdictInsert (toPrimaryKeyDict rows pk) v row
      | Option.none => vdictInsert (toPrimaryKeyDict rows pk)
          (.int ((toPrimaryKeyDict rows pk).length : Int)) row) = _
    rw [hget]
    rfl

theorem processData_discard_and_synthetic_key_witness :
    ([(pys "ID", Value.int 7)] : Row) ≠ ([] : Row) ∧
    toPrimaryKeyDict [[(pys "ID", Value.int 7)], [(pys "Name", Value.str (pys "x"))]]
        (pys "ID") =
      vdictInsert (toPrimaryKeyDict [[(pys "ID", Value.int 7)]] (pys "ID"))
        (.int ((toPrimaryKeyDict [[(pys "ID", Value.int 7)]] (pys "ID")).length : Int))
        [(pys "Name", Value.str (pys "x"))] :=
  ⟨processData_discard_and_synthetic_key.1 []
      ⟨[⟨pys "ID", pys "int"⟩], [[(pys "ID", Value.int 7)]]⟩
      ⟨pys "sc", pys "ID", []⟩ [((Value.int 7 : Value), [(pys "ID", Value.int 7)])] rfl
      ((Value.int 7 : Value), [(pys "ID", Value.int 7)])
      (List.mem_singleton.mpr rfl),
   processData_discard_and_synthetic_key.2 [[(pys "ID", Value.int 7)]]
      [(pys "Name", Value.str (pys "x"))] (pys "ID") rfl⟩

/-- A row that the merger's conflict check and merge fold act on: the
primary-key field is present and not `None`. -/
def keepRow (pk : Str) (row : Row) : Bool :=
  match sdictGet? row pk with
  | some v => !(isNoneV v)
  | Option.none => false

/-- The merge fold's per-row step (the body of the loop in
`DataMerger.merge_data_sources`). -/
def mergeStep (pk : Str) (acc : List (Value × Row)) (row : Row) : List (Value × Row) :=
  match sdictGet? row pk with
  | some v => if isNoneV v then acc else vdictInsert acc v row
  | Option.none => acc

theorem mergeRows_eq_foldl (rows : List Row) (pk : Str) :
    mergeRows rows pk = rows.foldl (mergeStep pk) [] := rfl

theorem mergeStep_not_keep {pk : Str} {row : Row} (h : keepRow pk row = false)
    (acc : List (Value × Row)) : mergeStep pk acc row = acc := by
  unfold mergeStep
  unfold keepRow at h
  cases hget : sdictGet? row pk with
  | none => rfl
  | some v =>
    rw [hget] at h
    simp only [Bool.not_eq_false'] at h
    show (if isNoneV v = true then acc else vdictInsert acc v row) = acc
    rw [if_pos h]

theorem mergeStep_keep {pk : Str} {row : Row} {v : Value}
    (hget : sdictGet? row pk = some v) (hn : isNoneV v = false)
    (acc : List (Value × Row)) : mergeStep pk acc row = vdictInsert acc v row := by
  unfold mergeStep
  rw [hget]
  show (if isNoneV v then acc else vdictInsert acc v row) = _
  rw [if_neg (by rw [hn]; exact Bool.false_ne_true)]

theorem keepRow_true {pk : Str} {row : Row} (h : keepRow pk row = true) :
    ∃ v, sdictGet? row pk = some v ∧ isNoneV v = false := by
  unfold keepRow at h
  cases hget : sdictGet? row pk with
  | none => rw [hget] at h; exact absurd h (by simp)
  | some v =>
    rw [hget] at h
    simp only [Bool.not_eq_true'] at h
    exact ⟨v, rfl, h⟩

theorem mergeRows_filter : ∀ (rows : List Row) (pk : Str),
    mergeRows rows pk = mergeRows (rows.filter (keepRow pk)) pk := by
  have haux : ∀ (pk : Str) (rows : List Row) (acc : List (Value × Row)),
      rows.foldl (mergeStep pk) acc =
        (rows.filter (keepRow pk)).foldl (mergeStep pk) acc := by
    intro pk rows
    induction rows with
    | nil => intro acc; rfl
    | cons row rest ih =>
      intro acc
      rw [List.foldl_cons, List.filter_cons]
      cases hk : keepRow pk row with
      | false =>
        rw [if_neg Bool.false_ne_true, mergeStep_not_keep hk]
        exact ih acc
      | true =>
        rw [if_pos rfl, List.foldl_cons]
        exact ih (mergeStep pk acc row)
  intro rows pk
  rw [mergeRows_eq_foldl, mergeRows_eq_foldl]
  exact haux pk rows []

theorem keepRow_false {pk : Str} {row : Row} (h : keepRow pk row = false) :
    sdictGet? row pk = Option.none ∨
      ∃ v, sdictGet? row pk = some v ∧ isNoneV v = true := by
  unfold keepRow at h
  cases hget : sdictGet? row pk with
  | none => exact Or.inl rfl
  | some v =>
    rw [hget] at h
    simp only [Bool.not_eq_false'] at h
    exact Or.inr ⟨v, rfl, h⟩

theorem checkPKAux_cons_skip {pk : Str} {row : Row} (h : keepRow pk row = false)
    (rest : List Row) (i : Nat) (seen : List Value) :
    checkPKAux pk (row :: rest) i seen = checkPKAux pk rest (i + 1) seen := by
  rcases keepRow_false h with hget | ⟨v, hget, hn⟩
  · show (match sdictGet? row pk with
      | some v =>
        if isNoneV v = true then checkPKAux pk rest (i + 1) seen
        else if seen.any (fun w => pyEq w v) then
          dupKeyMsg v (i + 1) :: checkPKAux pk rest (i + 1) seen
        else checkPKAux pk rest (i + 1) (seen ++ [v])
      | Option.none => checkPKAux pk rest (i + 1) seen) = _
    rw [hget]
  · show (match sdictGet? row pk with
      | some v =>
        if isNoneV v = true then checkPKAux pk rest (i + 1) seen
        else if seen.any (fun w => pyEq w v) then
          dupKeyMsg v (i + 1) :: checkPKAux pk rest (i + 1) seen
        else checkPKAux pk rest (i + 1) (seen ++ [v])
      | Option.none => checkPKAux pk rest (i + 1) seen) = _
    rw [hget]
    show (if isNoneV v = true then checkPKAux pk rest (i + 1) seen
      else if seen.any (fun w => pyEq w v) then
        dupKeyMsg v (i + 1) :: checkPKAux pk rest (i + 1) seen
      else checkPKAux pk rest (i + 1) (seen ++ [v])) = _
    rw [if_pos hn]

theorem checkPKAux_cons_dup {pk : Str} {row : Row} {v : Value} {seen : List Value}
    (hget : sdictGet? row pk = some v) (hn : isNoneV v = false)
    (hdup : seen.any (fun w => pyEq w v) = true) (rest : List Row) (i : Nat) :
    checkPKAux pk (row :: rest) i seen =
      dupKeyMsg v (i + 1) :: checkPKAux pk rest (i + 1) seen := by
  show (match sdictGet? row pk with
    | some v =>
      if isNoneV v = true then checkPKAux pk rest (i + 1) seen
      else if seen.any (fun w => pyEq w v) then
        dupKeyMsg v (i + 1) :: checkPKAux pk rest (i + 1) seen
      else checkPKAux pk rest (i + 1) (seen ++ [v])
    | Option.none => checkPKAux pk rest (i + 1) seen) = _
  rw [hget]
  show (if isNoneV v = true then checkPKAux pk rest (i + 1) seen
    else if seen.any (fun w => pyEq w v) then
      dupKeyMsg v (i + 1) :: checkPKAux pk rest (i + 1) seen
    else checkPKAux pk rest (i + 1) (seen ++ [v])) = _
  rw [if_neg (by rw [hn]; exact Bool.false_ne_true), if_pos hdup]

theorem checkPKAux_cons_new {pk : Str} {row : Row} {v : Value} {seen : List Value}
    (hget : sdictGet? row pk = some v) (hn : isNoneV v = false)
    (hdup : seen.any (fun w => pyEq w v) = false) (rest : List Row) (i : Nat) :
    checkPKAux pk (row :: rest) i seen = checkPKAux pk rest (i + 1) (seen ++ [v]) := by
  show (match sdictGet? row pk with
    | some v =>
      if isNoneV v = true then checkPKAux pk rest (i + 1) seen
      else if seen.any (fun w => pyEq w v) then
        dupKeyMsg v (i + 1) :: checkPKAux pk rest (i + 1) seen
      else checkPKAux pk rest (i + 1) (seen ++ [v])
    | Option.none => checkPKAux pk rest (i + 1) seen) = _
  rw [hget]
  show (if isNoneV v = true then checkPKAux pk rest (i + 1) seen
    else if seen.any (fun w => pyEq w v) then
      dupKeyMsg v (i + 1) :: checkPKAux pk rest (i + 1) seen
    else checkPKAux pk rest (i + 1) (seen ++ [v])) = _
  rw [if_neg (by rw [hn]; exact Bool.false_ne_true),
    if_neg (by rw [hdup]; exact Bool.false_ne_true)]

theorem checkPKAux_idx_nil (pk : Str) : ∀ (rows : List Row) (i j : Nat) (seen : List Value),
    (checkPKAux pk rows i seen = [] ↔ checkPKAux pk rows j seen = []) := by
  intro rows
  induction rows with
  | nil => intro i j seen; exact Iff.rfl
  | cons row rest ih =>
    intro i j seen
    cases hk : keepRow pk row with
    | false =>
      rw [checkPKAux_cons_skip hk, checkPKAux_cons_skip hk]
      exact ih (i + 1) (j + 1) seen
    | true =>
      obtain ⟨v, hget, hn⟩ := keepRow_true hk
      cases hdup : seen.any (fun w => pyEq w v) with
      | true =>
        rw [checkPKAux_cons_dup hget hn hdup, checkPKAux_cons_dup hget hn hdup]
        constructor <;> (intro h; exact absurd h (by simp))
      | false =>
        rw [checkPKAux_cons_new hget hn hdup, checkPKAux_cons_new hget hn hdup]
        exact ih (i + 1) (j + 1) (seen ++ [v])

theorem checkPKAux_filter_nil (pk : Str) :
    ∀ (rows : List Row) (i : Nat) (seen : List Value),
    (checkPKAux pk rows i seen = [] ↔
      checkPKAux pk (rows.filter (keepRow pk)) i seen = []) := by
  intro rows
  induction rows with
  | nil => intro i seen; exact Iff.rfl
  | cons row rest ih =>
    intro i seen
    rw [List.filter_cons]
    cases hk : keepRow pk row with
    | false =>
      rw [if_neg Bool.false_ne_true, checkPKAux_cons_skip hk]
      exact (checkPKAux_idx_nil pk rest (i + 1) i seen).trans (ih i seen)
    | true =>
      rw [if_pos rfl]
      obtain ⟨v, hget, hn⟩ := keepRow_true hk
      cases hdup : seen.any (fun w => pyEq w v) with
      | true =>
        rw [checkPKAux_cons_dup hget hn hdup, checkPKAux_cons_dup hget hn hdup]
        constructor <;> (intro h; exact absurd h (by simp))
      | false =>
        rw [checkPKAux_cons_new hget hn hdup, checkPKAux_cons_new hget hn hdup]
        exact ih (i + 1) (seen ++ [v])

theorem mergeRows_keys : ∀ (rows : List Row) (pk : Str) (p : Value × Row),
    p ∈ mergeRows rows pk →
    ∃ row ∈ rows, sdictGet? row pk = some p.1 ∧ isNoneV p.1 = false := by
  have haux : ∀ (pk : Str) (P : Value → Prop) (rows : List Row) (acc : List (Value × Row)),
      (∀ q ∈ acc, P q.1) →
      (∀ row ∈ rows, ∀ v, sdictGet? row pk = some v → isNoneV v = false → P v) →
      ∀ p ∈ rows.foldl (mergeStep pk) acc, P p.1 := by
    intro pk P rows
    induction rows with
    | nil => intro acc hacc _ p hp; exact hacc p hp
    | cons row rest ih =>
      intro acc hacc hrows p hp
      rw [List.foldl_cons] at hp
      have hrest : ∀ r ∈ rest, ∀ v, sdictGet? r pk = some v → isNoneV v = false → P v :=
        fun r hr => hrows r (List.mem_cons_of_mem row hr)
      cases hk : keepRow pk row with
      | false =>
        rw [mergeStep_not_keep hk] at hp
        exact ih acc hacc hrest p hp
      | true =>
        obtain ⟨v, hget, hn⟩ := keepRow_true hk
        rw [mergeStep_keep hget hn] at hp
        have hacc2 : ∀ q ∈ vdictInsert acc v row, P q.1 := by
          intro q hq
          rcases vdictInsert_key_mem hq with ⟨q2, hq2, hq2e⟩ | hqe
          · rw [hq2e]; exact hacc q2 hq2
          · rw [hqe]
            exact hrows row (List.mem_cons_self row rest) v hget hn
        exact ih (vdictInsert acc v row) hacc2 hrest p hp
  intro rows pk p hp
  exact haux pk
    (fun k => ∃ row ∈ rows, sdictGet? row pk = some k ∧ isNoneV k = false)
    rows [] (by intro q hq; simp at hq)
    (fun row hr v hv hn => ⟨row, hr, hv, hn⟩) p hp

/-- C9: every row whose primary-key field is absent or `None` is silently
omitted from the multi-source merge: (1) the merge fold produces the same
Keyed Dataset after removing those rows; (2) primary-key conflict
detection succeeds or fails identically after removing them; (3) when the
schema check and conflict check pass, merging succeeds and returns exactly
the fold over the primary-keyed rows — no error is raised for the omitted
rows; (4) every key in the merged dataset is the primary-key value of some
row (never a synthetic key). -/
theorem merge_skips_pkless_rows :
    (∀ (rows : List Row) (pk : Str),
      mergeRows rows pk = mergeRows (rows.filter (keepRow pk)) pk) ∧
    (∀ (rows : List Row) (pk : Str),
      (checkPKConflicts rows pk = [] ↔
        checkPKConflicts (rows.filter (keepRow pk)) pk = [])) ∧
    (∀ (srcs : List ExcelData) (cfg : ExportConfig),
      validateSchemaCompat srcs = [] →
      checkPKConflicts ((srcs.map ExcelData.rows).flatten) cfg.primary_key = [] →
      mergeDataSources srcs cfg =
        .ok (mergeRows (((srcs.map ExcelData.rows).flatten).filter
          (keepRow cfg.primary_key)) cfg.primary_key)) ∧
    (∀ (rows : List Row) (pk : Str) (p : Value × Row), p ∈ mergeRows rows pk →
      ∃ row ∈ rows, sdictGet? row pk = some p.1 ∧ isNoneV p.1 = false) := by
  refine ⟨mergeRows_filter, fun rows pk => checkPKAux_filter_nil pk rows 0 [], ?_,
    mergeRows_keys⟩
  intro srcs cfg hval hconf
  cases srcs with
  | nil => rfl
  | cons d rest =>
    show (if (d :: rest).isEmpty = true then Except.ok []
      else if validateSchemaCompat (d :: rest) ≠ [] then
        Except.error (pys "Schema compatibility errors: " ++
          pyJoin (pys "; ") (validateSchemaCompat (d :: rest)))
      else
        if checkPKConflicts ((List.map ExcelData.rows (d :: rest)).flatten)
            cfg.primary_key ≠ [] then
          Except.error (pys "Primary key conflicts: " ++ pyJoin (pys "; ")
            (checkPKConflicts ((List.map ExcelData.rows (d :: rest)).flatten)
              cfg.primary_key))
        else Except.ok (mergeRows ((List.map ExcelData.rows (d :: rest)).flatten)
          cfg.primary_key)) = _
    rw [if_neg (by simp), if_neg (fun hne => hne hval), if_neg (fun hne => hne hconf),
      mergeRows_filter]

theorem merge_skips_pkless_rows_witness :
    mergeDataSources
      [⟨[⟨pys "ID", pys "int"⟩],
        [[(pys "ID", Value.int 1)], [(pys "Other", Value.int 9)],
         [(pys "ID", Value.none)]]⟩]
      ⟨pys "sc", pys "ID", []⟩ =
      .ok (mergeRows
        ([[(pys "ID", Value.int 1)], [(pys "Other", Value.int 9)],
          [(pys "ID", Value.none)]].filter (keepRow (pys "ID"))) (pys "ID")) ∧
    (∃ row ∈ [[(pys "ID", Value.int 1)], [(pys "Other", Value.int 9)]],
      sdictGet? row (pys "ID") = some (Value.int 1) ∧
        isNoneV (Value.int 1) = false) :=
  ⟨merge_skips_pkless_rows.2.2.1
      [⟨[⟨pys "ID", pys "int"⟩],
        [[(pys "ID", Value.int 1)], [(pys "Other", Value.int 9)],
         [(pys "ID", Value.none)]]⟩]
      ⟨pys "sc", pys "ID", []⟩ rfl rfl,
   merge_skips_pkless_rows.2.2.2
      [[(pys "ID", Value.int 1)], [(pys "Other", Value.int 9)]] (pys "ID")
      (Value.int 1, [(pys "ID", Value.int 1)])
      (List.mem_singleton.mpr rfl)⟩

/-- Rows carry `pyEq`-distinct primary-key values. -/
def distinctKeys (pk : Str) (r1 r2 : Row) : Prop :=
  ∀ v1 v2, sdictGet? r1 pk = some v1 → sdictGet? r2 pk = some v2 → pyEq v1 v2 = false

theorem checkPKAux_nil_of_pairwise (pk : Str) : ∀ (rows : List Row) (i : Nat)
    (seen : List Value),
    (∀ s ∈ seen, ∀ r ∈ rows, ∀ v, sdictGet? r pk = some v → pyEq s v = false) →
    List.Pairwise (distinctKeys pk) rows →
    checkPKAux pk rows i seen = [] := by
  intro rows
  induction rows with
  | nil => intro i seen _ _; rfl
  | cons row rest ih =>
    intro i seen hseen hpw
    obtain ⟨hhead, htail⟩ := List.pairwise_cons.mp hpw
    cases hk : keepRow pk row with
    | false =>
      rw [checkPKAux_cons_skip hk]
      exact ih (i + 1) seen
        (fun s hs r hr v hv => hseen s hs r (List.mem_cons_of_mem row hr) v hv) htail
    | true =>
      obtain ⟨v, hget, hn⟩ := keepRow_true hk
      have hdup : seen.any (fun w => pyEq w v) = false := by
        rw [List.any_eq_false]
        intro s hs
        rw [hseen s hs row (List.mem_cons_self row rest) v hget]
        exact Bool.false_ne_true
      rw [checkPKAux_cons_new hget hn hdup]
      apply ih (i + 1) (seen ++ [v])
      · intro s hs r hr w hw
        rcases List.mem_append.mp hs with hs | hs
        · exact hseen s hs r (List.mem_cons_of_mem row hr) w hw
        · have hsv : s = v := List.mem_singleton.mp hs
          subst hsv
          exact hhead r hr s w hget hw
      · exact htail

theorem vdictInsert_append {d : List (Value × Row)} {k : Value} {v : Row}
    (h : (d.any (fun p => pyEq p.1 k)) = false) :
    vdictInsert d k v = d ++ [(k, v)] := by
  unfold vdictInsert
  rw [if_neg (by rw [h]; exact Bool.false_ne_true)]

theorem mergeFold_length (pk : Str) : ∀ (rows : List Row) (acc : List (Value × Row)),
    (∀ r ∈ rows, keepRow pk r = true) →
    List.Pairwise (distinctKeys pk) rows →
    (∀ q ∈ acc, ∀ r ∈ rows, ∀ v, sdictGet? r pk = some v → pyEq q.1 v = false) →
    (rows.foldl (mergeStep pk) acc).length = acc.length + rows.length := by
  intro rows
  induction rows with
  | nil => intro acc _ _ _; rfl
  | cons row rest ih =>
    intro acc hkeyed hpw hacc
    obtain ⟨hhead, htail⟩ := List.pairwise_cons.mp hpw
    obtain ⟨v, hget, hn⟩ := keepRow_true (hkeyed row (List.mem_cons_self row rest))
    rw [List.foldl_cons, mergeStep_keep hget hn]
    have hany : (acc.any (fun p => pyEq p.1 v)) = false := by
      rw [List.any_eq_false]
      intro q hq
      rw [hacc q hq row (List.mem_cons_self row rest) v hget]
      exact Bool.false_ne_true
    rw [vdictInsert_append hany]
    have hrec := ih (acc ++ [(v, row)])
      (fun r hr => hkeyed r (List.mem_cons_of_mem row hr)) htail
      (by
        intro q hq r hr w hw
        rcases List.mem_append.mp hq with hq | hq
        · exact hacc q hq r (List.mem_cons_of_mem row hr) w hw
        · have hqv : q = (v, row) := List.mem_singleton.mp hq
          subst hqv
          exact hhead r hr v w hget hw)
    rw [hrec]
    simp only [List.length_append, List.length_cons, List.length_nil]
    omega

theorem mergeDataSources_ok_eq : ∀ (srcs : List ExcelData) (cfg : ExportConfig),
    validateSchemaCompat srcs = [] →
    checkPKConflicts ((srcs.map ExcelData.rows).flatten) cfg.primary_key = [] →
    mergeDataSources srcs cfg =
      .ok (mergeRows ((srcs.map ExcelData.rows).flatten) cfg.primary_key) := by
  intro srcs cfg hval hconf
  cases srcs with
  | nil => rfl
  | cons d rest =>
    show (if (d :: rest).isEmpty = true then Except.ok []
      else if validateSchemaCompat (d :: rest) ≠ [] then
        Except.error (pys "Schema compatibility errors: " ++
          pyJoin (pys "; ") (validateSchemaCompat (d :: rest)))
      else
        if checkPKConflicts ((List.map ExcelData.rows (d :: rest)).flatten)
            cfg.primary_key ≠ [] then
          Except.error (pys "Primary key conflicts: " ++ pyJoin (pys "; ")
            (checkPKConflicts ((List.map ExcelData.rows (d :: rest)).flatten)
              cfg.primary_key))
        else Except.ok (mergeRows ((List.map ExcelData.rows (d :: rest)).flatten)
          cfg.primary_key)) = _
    rw [if_neg (by simp), if_neg (fun hne => hne hval), if_neg (fun hne => hne hconf)]

theorem mergeDataSources_conflict_error : ∀ (srcs : List ExcelData) (cfg : ExportConfig),
    srcs ≠ [] → validateSchemaCompat srcs = [] →
    checkPKConflicts ((srcs.map ExcelData.rows).flatten) cfg.primary_key ≠ [] →
    mergeDataSources srcs cfg =
      .error (pys "Primary key conflicts: " ++ pyJoin (pys "; ")
        (checkPKConflicts ((srcs.map ExcelData.rows).flatten) cfg.primary_key)) := by
  intro srcs cfg hne hval hconf
  cases srcs with
  | nil => exact absurd rfl hne
  | cons d rest =>
    show (if (d :: rest).isEmpty = true then Except.ok []
      else if validateSchemaCompat (d :: rest) ≠ [] then
        Except.error (pys "Schema compatibility errors: " ++
          pyJoin (pys "; ") (validateSchemaCompat (d :: rest)))
      else
        if checkPKConflicts ((List.map ExcelData.rows (d :: rest)).flatten)
            cfg.primary_key ≠ [] then
          Except.error (pys "Primary key conflicts: " ++ pyJoin (pys "; ")
            (checkPKConflicts ((List.map ExcelData.rows (d :: rest)).flatten)
              cfg.primary_key))
        else Except.ok (mergeRows ((List.map ExcelData.rows (d :: rest)).flatten)
          cfg.primary_key)) = _
    rw [if_neg (by simp), if_neg (fun hne2 => hne2 hval), if_pos hconf]

/-- Rows carry `pyEq`-distinct primary-key values (restricted to present,
non-`None` keys, as the conflict check tests them). -/
def distinctKeysN (pk : Str) (r1 r2 : Row) : Prop :=
  ∀ v1 v2, sdictGet? r1 pk = some v1 → isNoneV v1 = false →
    sdictGet? r2 pk = some v2 → isNoneV v2 = false → pyEq v1 v2 = false

theorem checkPKAux_nil_sound (pk : Str) : ∀ (rows : List Row) (i : Nat)
    (seen : List Value), checkPKAux pk rows i seen = [] →
    (∀ s ∈ seen, ∀ r ∈ rows, ∀ v, sdictGet? r pk = some v → isNoneV v = false →
      pyEq s v = false) ∧
    List.Pairwise (distinctKeysN pk) rows := by
  intro rows
  induction rows with
  | nil =>
    intro i seen _
    exact ⟨by intro s _ r hr; simp at hr, List.Pairwise.nil⟩
  | cons row rest ih =>
    intro i seen hnil
    cases hk : keepRow pk row with
    | false =>
      rw [checkPKAux_cons_skip hk] at hnil
      obtain ⟨hseen, hpw⟩ := ih (i + 1) seen hnil
      have hrowvac : ∀ v1, sdictGet? row pk = some v1 → isNoneV v1 = false → False := by
        intro v1 hv1 hn1
        rcases keepRow_false hk with hget | ⟨v, hget, hvn⟩
        · rw [hget] at hv1; exact absurd hv1 (by simp)
        · rw [hget] at hv1
          injection hv1 with hv1
          rw [← hv1] at hn1
          rw [hvn] at hn1
          exact absurd hn1 (by simp)
      constructor
      · intro s hs r hr v hv hn
        rcases List.mem_cons.mp hr with hr | hr
        · exact absurd (hrowvac v (hr ▸ hv) hn) (fun h => h)
        · exact hseen s hs r hr v hv hn
      · rw [List.pairwise_cons]
        refine ⟨?_, hpw⟩
        intro r _ v1 v2 hv1 hn1 _ _
        exact absurd (hrowvac v1 hv1 hn1) (fun h => h)
    | true =>
      obtain ⟨v, hget, hn⟩ := keepRow_true hk
      cases hdup : seen.any (fun w => pyEq w v) with
      | true =>
        rw [checkPKAux_cons_dup hget hn hdup] at hnil
        exact absurd hnil (by simp)
      | false =>
        rw [checkPKAux_cons_new hget hn hdup] at hnil
        obtain ⟨hseen, hpw⟩ := ih (i + 1) (seen ++ [v]) hnil
        have hseenOld : ∀ s ∈ seen, ∀ r ∈ rest, ∀ w, sdictGet? r pk = some w →
            isNoneV w = false → pyEq s w = false :=
          fun s hs => hseen s (List.mem_append.mpr (Or.inl hs))
        have hvrest : ∀ r ∈ rest, ∀ w, sdictGet? r pk = some w → isNoneV w = false →
            pyEq v w = false :=
          hseen v (List.mem_append.mpr (Or.inr (List.mem_singleton.mpr rfl)))
        constructor
        · intro s hs r hr w hw hwn
          rcases List.mem_cons.mp hr with hr | hr
          · subst hr
            rw [hw] at hget
            injection hget with hg
            subst hg
            have := List.any_eq_false.mp hdup s hs
            simpa using this
          · exact hseenOld s hs r hr w hw hwn
        · rw [List.pairwise_cons]
          refine ⟨?_, hpw⟩
          intro r hr v1 v2 hv1 _ hv2 hn2
          rw [hget] at hv1
          injection hv1 with hv1
          subst hv1
          exact hvrest r hr v2 hv2 hn2

theorem checkPKAux_shape (pk : Str) : ∀ (rows : List Row) (i : Nat) (seen : List Value)
    (m : Str), m ∈ checkPKAux pk rows i seen →
    ∃ j v, ∃ hj : j < rows.length,
      sdictGet? (rows.get ⟨j, hj⟩) pk = some v ∧ isNoneV v = false ∧
      m = dupKeyMsg v (i + j + 1) := by
  intro rows
  induction rows with
  | nil => intro i seen m hm; exact absurd hm (by simp [checkPKAux])
  | cons row rest ih =>
    intro i seen m hm
    have hshift : (∃ j v, ∃ hj : j < rest.length,
        sdictGet? (rest.get ⟨j, hj⟩) pk = some v ∧ isNoneV v = false ∧
        m = dupKeyMsg v ((i + 1) + j + 1)) →
        ∃ j v, ∃ hj : j < (row :: rest).length,
          sdictGet? ((row :: rest).get ⟨j, hj⟩) pk = some v ∧ isNoneV v = false ∧
          m = dupKeyMsg v (i + j + 1) := by
      rintro ⟨j, v, hj, hgv, hnv, hmv⟩
      refine ⟨j + 1, v, by simp only [List.length_cons]; omega, ?_, hnv, ?_⟩
      · show sdictGet? (rest.get ⟨j, hj⟩) pk = some v
        exact hgv
      · rw [hmv]
        congr 1
        omega
    cases hk : keepRow pk row with
    | false =>
      rw [checkPKAux_cons_skip hk] at hm
      exact hshift (ih (i + 1) seen m hm)
    | true =>
      obtain ⟨v, hget, hn⟩ := keepRow_true hk
      cases hdup : seen.any (fun w => pyEq w v) with
      | false =>
        rw [checkPKAux_cons_new hget hn hdup] at hm
        exact hshift (ih (i + 1) (seen ++ [v]) m hm)
      | true =>
        rw [checkPKAux_cons_dup hget hn hdup] at hm
        rcases List.mem_cons.mp hm with hm | hm
        · refine ⟨0, v, by simp, ?_, hn, ?_⟩
          · show sdictGet? row pk = some v
            exact hget
          · rw [hm]
        · exact hshift (ih (i + 1) seen m hm)

theorem mem_pyJoin_sub (sep : Str) : ∀ (l : List Str) (m : Str), m ∈ l →
    m <:+: pyJoin sep l := by
  intro l
  induction l with
  | nil => intro m hm; exact absurd hm (by simp)
  | cons x rest ih =>
    intro m hm
    rcases List.mem_cons.mp hm with hm | hm
    · subst hm
      cases rest with
      | nil => exact List.infix_refl m
      | cons y t =>
        refine ⟨[], sep ++ pyJoin sep (y :: t), ?_⟩
        show [] ++ m ++ (sep ++ pyJoin sep (y :: t)) = m ++ sep ++ pyJoin sep (y :: t)
        rw [List.nil_append, List.append_assoc]
    · have hrest : rest ≠ [] := by
        intro h
        rw [h] at hm
        exact absurd hm (by simp)
      obtain ⟨y, t, hyt⟩ := List.exists_cons_of_ne_nil hrest
      subst hyt
      obtain ⟨s, t2, hst⟩ := ih m hm
      refine ⟨x ++ sep ++ s, t2, ?_⟩
      show x ++ sep ++ s ++ m ++ t2 = x ++ sep ++ pyJoin sep (y :: t)
      rw [← hst]
      simp [List.append_assoc]

theorem infix_append_left {m P J : Str} (h : m <:+: J) : m <:+: (P ++ J) := by
  obtain ⟨s, t, hst⟩ := h
  exact ⟨P ++ s, t, by rw [← hst]; simp [List.append_assoc]⟩

/-- C5: (1) merging two schema-compatible sources whose rows all carry
primary-key values that are pairwise distinct (under Python `==`) succeeds
and produces a Keyed Dataset whose size is the sum of the two sources' row
counts; (2) if a primary-key value recurs at a later row, merging raises
an error instead of preferring one source: the conflict list is non-empty,
the merge result is the error built from it, and every conflict names a
duplicated key together with its 1-based row position, appearing verbatim
inside the error message. -/
theorem merge_disjoint_sum_and_conflict_error :
    (∀ (d1 d2 : ExcelData) (cfg : ExportConfig),
      validateSchemaCompat [d1, d2] = [] →
      (∀ row ∈ d1.rows ++ d2.rows, keepRow cfg.primary_key row = true) →
      List.Pairwise (distinctKeys cfg.primary_key) (d1.rows ++ d2.rows) →
      ∃ d, mergeDataSources [d1, d2] cfg = .ok d ∧
        d.length = d1.rows.length + d2.rows.length) ∧
    (∀ (d1 d2 : ExcelData) (cfg : ExportConfig) (i j : Nat)
      (hi : i < (d1.rows ++ d2.rows).length) (hj : j < (d1.rows ++ d2.rows).length)
      (w v : Value),
      validateSchemaCompat [d1, d2] = [] → i < j →
      sdictGet? ((d1.rows ++ d2.rows).get ⟨i, hi⟩) cfg.primary_key = some w →
      isNoneV w = false →
      sdictGet? ((d1.rows ++ d2.rows).get ⟨j, hj⟩) cfg.primary_key = some v →
      isNoneV v = false → pyEq w v = true →
      ∃ conflicts : List Str, conflicts ≠ [] ∧
        mergeDataSources [d1, d2] cfg =
          .error (pys "Primary key conflicts: " ++ pyJoin (pys "; ") conflicts) ∧
        ∀ m ∈ conflicts, ∃ j' v', ∃ hj' : j' < (d1.rows ++ d2.rows).length,
          sdictGet? ((d1.rows ++ d2.rows).get ⟨j', hj'⟩) cfg.primary_key = some v' ∧
          isNoneV v' = false ∧ m = dupKeyMsg v' (j' + 1) ∧
          m <:+: (pys "Primary key conflicts: " ++ pyJoin (pys "; ") conflicts)) := by
  have hall : ∀ (d1 d2 : ExcelData),
      ((List.map ExcelData.rows [d1, d2]).flatten) = d1.rows ++ d2.rows := by
    intro d1 d2
    simp
  constructor
  · intro d1 d2 cfg hval hkeyed hpw
    have hconf : checkPKConflicts (d1.rows ++ d2.rows) cfg.primary_key = [] :=
      checkPKAux_nil_of_pairwise cfg.primary_key (d1.rows ++ d2.rows) 0 []
        (by intro s hs; simp at hs) hpw
    refine ⟨mergeRows (d1.rows ++ d2.rows) cfg.primary_key, ?_, ?_⟩
    · have h := mergeDataSources_ok_eq [d1, d2] cfg hval
        (by rw [hall d1 d2]; exact hconf)
      rw [hall d1 d2] at h
      exact h
    · rw [mergeRows_eq_foldl,
        mergeFold_length cfg.primary_key (d1.rows ++ d2.rows) [] hkeyed hpw
          (by intro q hq; simp at hq)]
      simp [List.length_append]
  · intro d1 d2 cfg i j hi hj w v hval hij hgi hni hgj hnj heq
    have hconf_ne : checkPKConflicts (d1.rows ++ d2.rows) cfg.primary_key ≠ [] := by
      intro hnil
      have hpw := (checkPKAux_nil_sound cfg.primary_key (d1.rows ++ d2.rows) 0 [] hnil).2
      have hd := List.pairwise_iff_get.mp hpw ⟨i, hi⟩ ⟨j, hj⟩ hij
      rw [hd w v hgi hni hgj hnj] at heq
      exact absurd heq (by simp)
    refine ⟨checkPKConflicts (d1.rows ++ d2.rows) cfg.primary_key, hconf_ne, ?_, ?_⟩
    · have h := mergeDataSources_conflict_error [d1, d2] cfg (by simp) hval
        (by rw [hall d1 d2]; exact hconf_ne)
      rw [hall d1 d2] at h
      exact h
    · intro m hm
      obtain ⟨j', v', hj', hg', hn', hm'⟩ :=
        checkPKAux_shape cfg.primary_key (d1.rows ++ d2.rows) 0 [] m hm
      refine ⟨j', v', hj', hg', hn', ?_, ?_⟩
      · rw [hm']
        congr 1
        omega
      · exact infix_append_left (mem_pyJoin_sub (pys "; ") _ m hm)

def mrgSrcA : ExcelData := ⟨[⟨pys "ID", pys "int"⟩], [[(pys "ID", Value.int 1)]]⟩
def mrgSrcB : ExcelData := ⟨[⟨pys "ID", pys "int"⟩], [[(pys "ID", Value.int 2)]]⟩
def mrgSrcBdup : ExcelData := ⟨[⟨pys "ID", pys "int"⟩], [[(pys "ID", Value.int 1)]]⟩

theorem merge_disjoint_sum_and_conflict_error_witness :
    (∃ d, mergeDataSources [mrgSrcA, mrgSrcB] ⟨pys "sc", pys "ID", []⟩ = .ok d ∧
      d.length = mrgSrcA.rows.length + mrgSrcB.rows.length) ∧
    (∃ conflicts : List Str, conflicts ≠ [] ∧
      mergeDataSources [mrgSrcA, mrgSrcBdup] ⟨pys "sc", pys "ID", []⟩ =
        .error (pys "Primary key conflicts: " ++ pyJoin (pys "; ") conflicts) ∧
      ∀ m ∈ conflicts, ∃ j' v',
        ∃ hj' : j' < (mrgSrcA.rows ++ mrgSrcBdup.rows).length,
        sdictGet? ((mrgSrcA.rows ++ mrgSrcBdup.rows).get ⟨j', hj'⟩) (pys "ID") = some v' ∧
        isNoneV v' = false ∧ m = dupKeyMsg v' (j' + 1) ∧
        m <:+: (pys "Primary key conflicts: " ++ pyJoin (pys "; ") conflicts)) := by
  constructor
  · apply merge_disjoint_sum_and_conflict_error.1 mrgSrcA mrgSrcB
      ⟨pys "sc", pys "ID", []⟩ rfl (by decide)
    constructor
    · intro r hr v1 v2 hv1 hv2
      have hr2 : r = [(pys "ID", Value.int 2)] := List.mem_singleton.mp hr
      subst hr2
      have h1 : some (Value.int 1) = some v1 := hv1
      have h2 : some (Value.int 2) = some v2 := hv2
      injection h1 with h1
      injection h2 with h2
      subst h1
      subst h2
      decide
    · exact List.pairwise_singleton _ _
  · exact merge_disjoint_sum_and_conflict_error.2 mrgSrcA mrgSrcBdup
      ⟨pys "sc", pys "ID", []⟩ 0 1 (by decide) (by decide)
      (Value.int 1) (Value.int 1) rfl (by decide) rfl (by decide) rfl (by decide)
      (by decide)
